import Mathlib

/-!
# Verification of the sharp-rustic chess engine core

Shallow embedding of the parts of the sharp-rustic engine (a Rust chess
engine) that the specification claims talk about, together with proofs or
refutations of those claims.

Conventions of the embedding:
* Rust `u64` bitboards become `Nat`; all bitwise operators (`&&&`, `|||`,
  `^^^`, `>>>`) agree with the `u64` ones on values below `2 ^ 64`, and
  left shifts / complements that can leave the 64-bit range are reduced
  with an explicit `% 2 ^ 64` (`shl64`, `compl64`).
* Loops of the form `while pieces > 0 { let sq = bits::next(&mut pieces); .. }`
  iterate once over every set bit of a 64-bit word, in increasing square
  order; they are embedded as folds over `List.range 64` guarded by
  `Nat.testBit`, which visit exactly the same squares in the same order.
* Struct mutation becomes functional record update.
* Components of the repository whose sources are not available (the
  Zobrist random table, the move generator, make/unmake, the evaluator
  driver and the recursive search callees) are either abstracted as
  parameters or modelled from the spec; each such definition says so in
  its doc comment.
-/

/-- Constants of the `Sides` namespace (board/defs.rs): WHITE = 0, BLACK = 1. -/
def Sides.WHITE : Nat := 0

/-- Black side index. -/
def Sides.BLACK : Nat := 1

/-- Number of sides. -/
def Sides.BOTH : Nat := 2

/-- Piece-type constants (board/defs.rs; the comments in board.rs fix the
encoding: 0 = KING, 1 = QUEEN, 2 = ROOK, 3 = BISHOP, 4 = KNIGHT, 5 = PAWN,
and `NONE` is the out-of-range marker used in the piece list). -/
def Pieces.KING : Nat := 0

/-- Queen piece index. -/
def Pieces.QUEEN : Nat := 1

/-- Rook piece index. -/
def Pieces.ROOK : Nat := 2

/-- Bishop piece index. -/
def Pieces.BISHOP : Nat := 3

/-- Knight piece index. -/
def Pieces.KNIGHT : Nat := 4

/-- Pawn piece index. -/
def Pieces.PAWN : Nat := 5

/-- Marker for an empty square in the piece list. -/
def Pieces.NONE : Nat := 6

/-- Number of piece types. -/
def NrOf.PIECE_TYPES : Nat := 6

/-- Number of squares. -/
def NrOf.SQUARES : Nat := 64

/-- 2 ^ 64, the modulus of `u64` arithmetic. -/
def M64 : Nat := 2 ^ 64

/-- `u64` left shift: shift then truncate to 64 bits. -/
def shl64 (x k : Nat) : Nat := (x <<< k) % M64

/-- `u64` bitwise complement (`!x` in Rust), correct for `x < 2 ^ 64`. -/
def compl64 (x : Nat) : Nat := (M64 - 1) ^^^ x

/-- Binary digit sum with explicit fuel (the fuel only needs to dominate
the bit length, and `n` itself always does). -/
def popcountAux : Nat → Nat → Nat
  | 0, _ => 0
  | fuel + 1, n => if n = 0 then 0 else n % 2 + popcountAux fuel (n / 2)

/-- Population count of a natural number; agrees with `u64::count_ones`
on all values below `2 ^ 64` (and is the binary digit sum for any Nat). -/
def popcount (n : Nat) : Nat := popcountAux n n

/-- `u64::trailing_zeros`: the index of the least significant set bit,
64 when the word is zero (used by `Board::king_square`). -/
def trailing_zeros (bb : Nat) : Nat :=
  ((List.range 64).find? (fun i => bb.testBit i)).getD 64

/-- `BB_SQUARES[sq]` (board/defs.rs): the bitboard with only `sq` set. -/
def BB_SQUAARE (sq : Nat) : Nat := 1 <<< sq

/-- `BB_FILES[0]`, the A-file mask (board/defs.rs). -/
def BB_FILE_A : Nat := 0x0101010101010101

/-- `BB_FILES[7]`, the H-file mask (board/defs.rs). -/
def BB_FILE_H : Nat := 0x8080808080808080

/-- `BB_FILES[f]` (board/defs.rs): all eight squares of file `f`. -/
def BB_FILES (f : Nat) : Nat :=
  (List.range 8).foldl (fun acc r => acc ||| (1 <<< (r * 8 + f))) 0

/-! ## The board data model (board.rs, board/gamestate.rs, board/history.rs) -/

/-- The `GameState` struct (board/gamestate.rs is not in the provided
sources; its fields are reconstructed from their uses in board.rs and from
the data model of the spec: Zobrist key, side to move, castling rights,
en-passant square, half-move and full-move counters, the PSQT accumulator
per side, and the evaluation cache slots). -/
structure GameState where
  zobrist_key : Nat
  active_color : Nat
  castling : Nat
  en_passant : Option Nat
  halfmove_clock : Nat
  fullmove_number : Nat
  psqt : Nat → Int
  pawn_hash : Nat
  pawn_structure_score : Int
  mobility_score : Int
  game_phase : Int

/-- `GameState::new()`: the all-zero game state. -/
def GameState.new : GameState :=
  { zobrist_key := 0, active_color := 0, castling := 0, en_passant := none,
    halfmove_clock := 0, fullmove_number := 0, psqt := fun _ => 0,
    pawn_hash := 0, pawn_structure_score := 0, mobility_score := 0,
    game_phase := 0 }

/-- The `History` struct (board/history.rs): a boxed slice of game states
plus a fill count.  The slice is modelled as a list whose length is the
allocated capacity. -/
structure History where
  list : List GameState
  count : Nat

/-- `History::new_for_search()`: a fresh history for a search thread with
capacity 128 and no entries (board/history.rs lines 51-58). -/
def History.new_for_search : History :=
  { list := List.replicate 128 GameState.new, count := 0 }

/-- `History::capacity()`: length of the underlying allocation. -/
def History.capacity (h : History) : Nat := h.list.length

/-- `History::len()`: the number of pushed game states. -/
def History.len (h : History) : Nat := h.count

/-- The Zobrist random table (board/zobrist.rs is not in the provided
sources).  Modelled from the spec: a process-wide read-only table of
random 64-bit numbers, addressed per piece/side/square, per castling
mask, per side to move and per en-passant square.  The concrete random
values never matter to the claims, so the accessors are kept as
unconstrained functions. -/
structure ZobristRandoms where
  piece : Nat → Nat → Nat → Nat
  castling : Nat → Nat
  side : Nat → Nat
  en_passant : Option Nat → Nat

/-- `FLIP` (evaluation/psqt.rs is not in the provided sources).  Modelled
from the spec: the vertical mirror used so one PSQT serves both sides.
Its exact values do not enter any claim proved in this file. -/
def FLIP (sq : Nat) : Nat := sq ^^^ 56

/-- `PSQT_MG` (evaluation/psqt.rs is not in the provided sources).
Modelled from the spec: a per-piece per-square midgame table.  The claims
below never depend on its values, so it is kept as the zero table. -/
def PSQT_MG (_piece _sq : Nat) : Int := 0

/-- The `Board` struct (board.rs lines 47-54). -/
structure Board where
  bb_pieces : Nat → Nat → Nat
  bb_side : Nat → Nat
  game_state : GameState
  history : History
  piece_list : Nat → Nat
  zr : ZobristRandoms

/-- Point update of a doubly indexed function (used for `bb_pieces`). -/
def update2 (f : Nat → Nat → Nat) (a b : Nat) (v : Nat) : Nat → Nat → Nat :=
  fun x y => if x = a ∧ y = b then v else f x y

/-- Reading an `update2` at the updated index. -/
theorem update2_same (f : Nat → Nat → Nat) (a b v : Nat) :
    update2 f a b v a b = v := by simp [update2]

/-- Reading an `update2` elsewhere. -/
theorem update2_other (f : Nat → Nat → Nat) (a b v x y : Nat)
    (h : ¬(x = a ∧ y = b)) : update2 f a b v x y = f x y := by
  simp only [update2]
  exact if_neg h

/-- `Board::get_pieces` (board.rs lines 71-73). -/
def Board.get_pieces (b : Board) (piece side : Nat) : Nat :=
  b.bb_pieces side piece

/-- `Board::occupancy` (board.rs lines 76-78). -/
def Board.occupancy (b : Board) : Nat :=
  b.bb_side Sides.WHITE ||| b.bb_side Sides.BLACK

/-- `Board::us` (board.rs lines 81-83). -/
def Board.us (b : Board) : Nat := b.game_state.active_color

/-- `Board::opponent` (board.rs lines 86-88). -/
def Board.opponent (b : Board) : Nat := b.game_state.active_color ^^^ 1

/-- `Board::king_square` (board.rs lines 91-93). -/
def Board.king_square (b : Board) (side : Nat) : Nat :=
  trailing_zeros (b.bb_pieces side Pieces.KING)

/-- `Board::remove_piece` (board.rs lines 96-107): clear the square in the
piece and side bitboards, clear the piece list entry, xor the piece key
out of the Zobrist hash, and update the PSQT accumulator. -/
def Board.remove_piece (b : Board) (side piece square : Nat) : Board :=
  { b with
    bb_pieces := update2 b.bb_pieces side piece
      (b.bb_pieces side piece ^^^ (1 <<< square)),
    bb_side := Function.update b.bb_side side (b.bb_side side ^^^ (1 <<< square)),
    piece_list := Function.update b.piece_list square Pieces.NONE,
    game_state := { b.game_state with
      zobrist_key := b.game_state.zobrist_key ^^^ b.zr.piece side piece square,
      psqt := Function.update b.game_state.psqt side
        (b.game_state.psqt side -
          PSQT_MG piece (if side = Sides.WHITE then FLIP square else square)) } }

/-- `Board::put_piece` (board.rs lines 110-121): the converse of
`remove_piece`, setting bits with `|=`. -/
def Board.put_piece (b : Board) (side piece square : Nat) : Board :=
  { b with
    bb_pieces := update2 b.bb_pieces side piece
      (b.bb_pieces side piece ||| (1 <<< square)),
    bb_side := Function.update b.bb_side side (b.bb_side side ||| (1 <<< square)),
    piece_list := Function.update b.piece_list square piece,
    game_state := { b.game_state with
      zobrist_key := b.game_state.zobrist_key ^^^ b.zr.piece side piece square,
      psqt := Function.update b.game_state.psqt side
        (b.game_state.psqt side +
          PSQT_MG piece (if side = Sides.WHITE then FLIP square else square)) } }

/-- `Board::move_piece` (board.rs lines 124-127). -/
def Board.move_piece (b : Board) (side piece fromSq toSq : Nat) : Board :=
  (b.remove_piece side piece fromSq).put_piece side piece toSq

/-- `Board::set_ep_square` (board.rs lines 130-134). -/
def Board.set_ep_square (b : Board) (square : Nat) : Board :=
  { b with game_state := { b.game_state with
      en_passant := some square,
      zobrist_key := b.game_state.zobrist_key
        ^^^ b.zr.en_passant b.game_state.en_passant
        ^^^ b.zr.en_passant (some square) } }

/-- `Board::clear_ep_square` (board.rs lines 137-141). -/
def Board.clear_ep_square (b : Board) : Board :=
  { b with game_state := { b.game_state with
      en_passant := none,
      zobrist_key := b.game_state.zobrist_key
        ^^^ b.zr.en_passant b.game_state.en_passant
        ^^^ b.zr.en_passant none } }

/-- `Board::swap_side` (board.rs lines 144-148). -/
def Board.swap_side (b : Board) : Board :=
  { b with game_state := { b.game_state with
      active_color := b.game_state.active_color ^^^ 1,
      zobrist_key := b.game_state.zobrist_key
        ^^^ b.zr.side b.game_state.active_color
        ^^^ b.zr.side (b.game_state.active_color ^^^ 1) } }

/-- `Board::update_castling_permissions` (board.rs lines 151-155). -/
def Board.update_castling_permissions (b : Board) (new_permissions : Nat) : Board :=
  { b with game_state := { b.game_state with
      castling := new_permissions,
      zobrist_key := b.game_state.zobrist_key
        ^^^ b.zr.castling b.game_state.castling
        ^^^ b.zr.castling new_permissions } }

/-- `Board::calculate_game_phase` (board.rs lines 312-325): queens count 4,
rooks 2, bishops and knights 1, summed over both sides and clamped to 24. -/
def Board.calculate_game_phase (b : Board) : Int :=
  let step := fun (phase : Int) (side : Nat) =>
    phase + (popcount (b.get_pieces Pieces.QUEEN side) : Int) * 4
          + (popcount (b.get_pieces Pieces.ROOK side) : Int) * 2
          + (popcount (b.get_pieces Pieces.BISHOP side) : Int) * 1
          + (popcount (b.get_pieces Pieces.KNIGHT side) : Int) * 1
  min (step (step 0 Sides.WHITE) Sides.BLACK) 24

/-- `impl Clone for Board` (board.rs lines 501-514): copy every field,
share the Zobrist table, but replace the history by a fresh small one. -/
def Board.cloneForWorker (b : Board) : Board :=
  { bb_pieces := b.bb_pieces,
    bb_side := b.bb_side,
    game_state := b.game_state,
    history := History.new_for_search,
    piece_list := b.piece_list,
    zr := b.zr }

/-! ## C8: game phase formula and bounds -/

/-- The game-phase formula exactly as the claim words it: the minimum of 24
and the weighted material count 4 Q + 2 R + B + N over both sides. -/
def claimedGamePhase (b : Board) : Int :=
  min 24
    ((popcount (b.bb_pieces Sides.WHITE Pieces.QUEEN)
      + popcount (b.bb_pieces Sides.BLACK Pieces.QUEEN) : Int) * 4
     + (popcount (b.bb_pieces Sides.WHITE Pieces.ROOK)
      + popcount (b.bb_pieces Sides.BLACK Pieces.ROOK) : Int) * 2
     + (popcount (b.bb_pieces Sides.WHITE Pieces.BISHOP)
      + popcount (b.bb_pieces Sides.BLACK Pieces.BISHOP) : Int) * 1
     + (popcount (b.bb_pieces Sides.WHITE Pieces.KNIGHT)
      + popcount (b.bb_pieces Sides.BLACK Pieces.KNIGHT) : Int) * 1)

/-- C8: for every board, `calculate_game_phase` returns
min(24, 4 #queens + 2 #rooks + #bishops + #knights) over both sides, so
the result always lies between 0 and 24 inclusive. -/
theorem calculate_game_phase_formula_and_bounds (b : Board) :
    b.calculate_game_phase = claimedGamePhase b ∧
    0 ≤ b.calculate_game_phase ∧ b.calculate_game_phase ≤ 24 := by
  have h : b.calculate_game_phase = claimedGamePhase b := by
    unfold Board.calculate_game_phase claimedGamePhase Board.get_pieces
    push_cast
    rw [min_comm]
    ring_nf
  refine ⟨h, ?_, ?_⟩
  · rw [h]
    unfold claimedGamePhase
    have hq : (0 : Int) ≤ popcount (b.bb_pieces Sides.WHITE Pieces.QUEEN) := Int.ofNat_nonneg _
    positivity
  · rw [h]
    unfold claimedGamePhase
    exact min_le_left _ _

/-! ## C7: cloning a board for a worker thread -/

/-- C7: the worker-thread clone copies `bb_pieces`, `bb_side`,
`game_state` (including the Zobrist key) and `piece_list`, shares the
Zobrist random table, and replaces the history by a fresh empty stack of
capacity 128; the board has no other fields. -/
theorem clone_for_worker_spec (b : Board) :
    (b.cloneForWorker).bb_pieces = b.bb_pieces ∧
    (b.cloneForWorker).bb_side = b.bb_side ∧
    (b.cloneForWorker).game_state = b.game_state ∧
    (b.cloneForWorker).game_state.zobrist_key = b.game_state.zobrist_key ∧
    (b.cloneForWorker).piece_list = b.piece_list ∧
    (b.cloneForWorker).zr = b.zr ∧
    (b.cloneForWorker).history.len = 0 ∧
    (b.cloneForWorker).history.capacity = 128 ∧
    128 ≤ (b.cloneForWorker).history.capacity := by
  refine ⟨rfl, rfl, rfl, rfl, rfl, rfl, rfl, ?_, ?_⟩ <;>
    simp [Board.cloneForWorker, History.new_for_search, History.capacity]

/-! ## C1: incremental Zobrist key equals fresh recomputation -/

/-- The xor of `f sq` over all set bits of `bb` below `n`.  This is the
value accumulated by the `while white_pieces > 0 { .. bits::next .. }`
loops of `Board::init_zobrist_key` for one side/piece bitboard (the
accumulation order is immaterial because xor is commutative and
associative). -/
def pieceKeyAux (f : Nat → Nat) (bb : Nat) : Nat → Nat
  | 0 => 0
  | n + 1 => (if bb.testBit n then f n else 0) ^^^ pieceKeyAux f bb n

/-- The xor of `f sq` over every set bit of a 64-bit bitboard. -/
def pieceKey (f : Nat → Nat) (bb : Nat) : Nat := pieceKeyAux f bb 64

/-- The list of (side, piece) pairs visited by the nested loops of
`Board::init_zobrist_key` (piece types 0..5, each for white and black). -/
def sidePiecePairs : List (Nat × Nat) :=
  [(0, 0), (0, 1), (0, 2), (0, 3), (0, 4), (0, 5),
   (1, 0), (1, 1), (1, 2), (1, 3), (1, 4), (1, 5)]

/-- `Board::init_zobrist_key` (board.rs lines 454-497): xor together the
piece random of every piece on the board, then the castling, side and
en-passant randoms. -/
def Board.init_zobrist_key (b : Board) : Nat :=
  (sidePiecePairs.foldl
    (fun key sp => key ^^^ pieceKey (b.zr.piece sp.1 sp.2) (b.bb_pieces sp.1 sp.2)) 0)
  ^^^ b.zr.castling b.game_state.castling
  ^^^ b.zr.side b.game_state.active_color
  ^^^ b.zr.en_passant b.game_state.en_passant

/-- Left commutativity of xor on Nat, for AC normalisation by simp. -/
theorem natXor_left_comm (a b c : Nat) : a ^^^ (b ^^^ c) = b ^^^ (a ^^^ c) := by
  rw [← Nat.xor_assoc, Nat.xor_comm a b, Nat.xor_assoc]

/-- Left cancellation of xor on Nat. -/
theorem natXor_cancel_left (a b : Nat) : a ^^^ (a ^^^ b) = b := by
  rw [← Nat.xor_assoc, Nat.xor_self, Nat.zero_xor]

/-- `pieceKeyAux` only looks at the bits below its fuel. -/
theorem pieceKeyAux_congr (f : Nat → Nat) (bb cc : Nat) (n : Nat)
    (h : ∀ i, i < n → bb.testBit i = cc.testBit i) :
    pieceKeyAux f bb n = pieceKeyAux f cc n := by
  induction n with
  | zero => rfl
  | succ n ih =>
    simp only [pieceKeyAux]
    rw [h n (by omega), ih (fun i hi => h i (by omega))]

/-- Toggling one bit below the fuel xors the corresponding random into the
piece key. -/
theorem pieceKeyAux_toggle (f : Nat → Nat) (bb s : Nat) (n : Nat) (hs : s < n) :
    pieceKeyAux f (bb ^^^ (1 <<< s)) n = pieceKeyAux f bb n ^^^ f s := by
  have hpow : (1 <<< s) = 2 ^ s := by simp [Nat.shiftLeft_eq]
  induction n with
  | zero => omega
  | succ n ih =>
    by_cases hsn : s = n
    · subst hsn
      simp only [pieceKeyAux]
      have hrec : pieceKeyAux f (bb ^^^ (1 <<< s)) s = pieceKeyAux f bb s := by
        refine pieceKeyAux_congr f _ _ s (fun i hi => ?_)
        rw [hpow]
        simp only [Nat.testBit_xor, Nat.testBit_two_pow,
          decide_eq_false (by omega : ¬ s = i), Bool.xor_false]
      rw [hrec]
      have hbit : (bb ^^^ (1 <<< s)).testBit s = !(bb.testBit s) := by
        rw [hpow]
        simp [Nat.testBit_xor, Nat.testBit_two_pow]
      rw [hbit]
      cases hb : bb.testBit s <;>
        simp [Nat.xor_assoc, Nat.xor_comm, natXor_left_comm, natXor_cancel_left]
    · have hlt : s < n := by omega
      simp only [pieceKeyAux]
      have hbit : (bb ^^^ (1 <<< s)).testBit n = bb.testBit n := by
        rw [hpow]
        simp [Nat.testBit_xor, Nat.testBit_two_pow, hsn]
      rw [hbit, ih hlt]
      simp [Nat.xor_assoc]

/-- Setting a clear bit is the same as toggling it. -/
theorem or_shl_of_testBit_false (bb s : Nat) (h : bb.testBit s = false) :
    bb ||| (1 <<< s) = bb ^^^ (1 <<< s) := by
  apply Nat.eq_of_testBit_eq
  intro i
  have hpow : (1 <<< s) = 2 ^ s := by simp [Nat.shiftLeft_eq]
  rw [hpow]
  by_cases hi : s = i
  · subst hi; simp [Nat.testBit_two_pow, h]
  · simp [Nat.testBit_two_pow, hi]

/-- Generic fold fact: folding xor from an accumulator is the accumulator
xor the fold from zero. -/
theorem foldlXor_acc {α : Type} (g : α → Nat) (L : List α) (a : Nat) :
    L.foldl (fun acc x => acc ^^^ g x) a
      = a ^^^ L.foldl (fun acc x => acc ^^^ g x) 0 := by
  induction L generalizing a with
  | nil => simp
  | cons x xs ih =>
    simp only [List.foldl_cons]
    rw [ih (a ^^^ g x), ih (0 ^^^ g x)]
    simp [Nat.xor_assoc, Nat.xor_comm, natXor_left_comm]

/-- Generic fold fact: the xor fold only depends on the values of the
contribution function on the list. -/
theorem foldlXor_congr {α : Type} (g h : α → Nat) (L : List α)
    (hgh : ∀ x ∈ L, h x = g x) :
    L.foldl (fun acc x => acc ^^^ h x) 0
      = L.foldl (fun acc x => acc ^^^ g x) 0 := by
  induction L with
  | nil => rfl
  | cons y ys ih =>
    simp only [List.foldl_cons]
    rw [foldlXor_acc h, foldlXor_acc g,
      hgh y (List.mem_cons_self _ _),
      ih (fun x hx => hgh x (List.mem_cons_of_mem _ hx))]

/-- Generic fold fact: if two contribution functions agree except on one
element that occurs exactly once in a duplicate-free list, where they
differ by xor with `d`, then the folds differ by xor with `d`. -/
theorem foldlXor_update {α : Type} [DecidableEq α] (g h : α → Nat) (x0 : α)
    (d : Nat) (L : List α) (hnd : L.Nodup) (hmem : x0 ∈ L)
    (hx0 : h x0 = g x0 ^^^ d) (hother : ∀ x, x ≠ x0 → h x = g x) :
    L.foldl (fun acc x => acc ^^^ h x) 0
      = L.foldl (fun acc x => acc ^^^ g x) 0 ^^^ d := by
  induction L with
  | nil => simp at hmem
  | cons y ys ih =>
    simp only [List.foldl_cons]
    rw [foldlXor_acc h, foldlXor_acc g]
    rcases List.mem_cons.mp hmem with hy | hy
    · subst hy
      have hnot : x0 ∉ ys := (List.nodup_cons.mp hnd).1
      have hsame : ys.foldl (fun acc x => acc ^^^ h x) 0
          = ys.foldl (fun acc x => acc ^^^ g x) 0 :=
        foldlXor_congr g h ys
          (fun x hx => hother x (by rintro rfl; exact hnot hx))
      rw [hsame, hx0]
      simp [Nat.xor_assoc, Nat.xor_comm, natXor_left_comm]
    · have hyne : y ≠ x0 := by
        rintro rfl; exact (List.nodup_cons.mp hnd).1 hy
      rw [hother y hyne, ih (List.nodup_cons.mp hnd).2 hy]
      simp [Nat.xor_assoc]

/-- The Zobrist invariant: the incrementally maintained key equals the
fresh recomputation. -/
def zobristOk (b : Board) : Prop :=
  b.game_state.zobrist_key = b.init_zobrist_key

/-- Toggling the (side, piece) bitboard at one square changes the piece
fold of `init_zobrist_key` by exactly the piece random of that square. -/
theorem piecesFold_toggle (b : Board) (side piece square : Nat)
    (hside : side < 2) (hpiece : piece < 6) (hsq : square < 64) :
    sidePiecePairs.foldl
      (fun key sp => key ^^^ pieceKey (b.zr.piece sp.1 sp.2)
        ((update2 b.bb_pieces side piece
          (b.bb_pieces side piece ^^^ (1 <<< square))) sp.1 sp.2)) 0
    = sidePiecePairs.foldl
        (fun key sp => key ^^^ pieceKey (b.zr.piece sp.1 sp.2) (b.bb_pieces sp.1 sp.2)) 0
      ^^^ b.zr.piece side piece square := by
  have hnd : sidePiecePairs.Nodup := by unfold sidePiecePairs; decide
  have hmem : (side, piece) ∈ sidePiecePairs := by
    unfold sidePiecePairs
    interval_cases side <;> interval_cases piece <;> simp
  have hx0 : (fun sp : Nat × Nat => pieceKey (b.zr.piece sp.1 sp.2)
        ((update2 b.bb_pieces side piece
          (b.bb_pieces side piece ^^^ (1 <<< square))) sp.1 sp.2)) (side, piece)
      = (fun sp : Nat × Nat =>
          pieceKey (b.zr.piece sp.1 sp.2) (b.bb_pieces sp.1 sp.2)) (side, piece)
        ^^^ b.zr.piece side piece square := by
    show pieceKey (b.zr.piece side piece)
        (update2 b.bb_pieces side piece
          (b.bb_pieces side piece ^^^ (1 <<< square)) side piece) = _
    rw [update2_same]
    exact pieceKeyAux_toggle _ _ _ 64 hsq
  have hother : ∀ x : Nat × Nat, x ≠ (side, piece) →
      (fun sp : Nat × Nat => pieceKey (b.zr.piece sp.1 sp.2)
        ((update2 b.bb_pieces side piece
          (b.bb_pieces side piece ^^^ (1 <<< square))) sp.1 sp.2)) x
      = (fun sp : Nat × Nat =>
          pieceKey (b.zr.piece sp.1 sp.2) (b.bb_pieces sp.1 sp.2)) x := by
    intro x hx
    simp only []
    rw [update2_other]
    intro hcon
    exact hx (by cases x; simp at hcon; simp [hcon])
  exact foldlXor_update
    (fun sp : Nat × Nat => pieceKey (b.zr.piece sp.1 sp.2) (b.bb_pieces sp.1 sp.2))
    (fun sp : Nat × Nat => pieceKey (b.zr.piece sp.1 sp.2)
      ((update2 b.bb_pieces side piece
        (b.bb_pieces side piece ^^^ (1 <<< square))) sp.1 sp.2))
    (side, piece) (b.zr.piece side piece square) sidePiecePairs hnd hmem hx0 hother

/-- `remove_piece` preserves the Zobrist invariant (the xor removes the
piece random from both the incremental key and the recomputation). -/
theorem zobristOk_remove (b : Board) (side piece square : Nat)
    (hside : side < 2) (hpiece : piece < 6) (hsq : square < 64)
    (hok : zobristOk b) : zobristOk (b.remove_piece side piece square) := by
  unfold zobristOk Board.init_zobrist_key at hok ⊢
  simp only [Board.remove_piece]
  rw [piecesFold_toggle b side piece square hside hpiece hsq, hok]
  simp [Nat.xor_assoc, Nat.xor_comm, natXor_left_comm]

/-- `put_piece` preserves the Zobrist invariant, provided the target bit
is clear (as it is whenever the board is reachable, because a piece is
only put on an empty square). -/
theorem zobristOk_put (b : Board) (side piece square : Nat)
    (hside : side < 2) (hpiece : piece < 6) (hsq : square < 64)
    (hbit : (b.bb_pieces side piece).testBit square = false)
    (hok : zobristOk b) : zobristOk (b.put_piece side piece square) := by
  unfold zobristOk Board.init_zobrist_key at hok ⊢
  simp only [Board.put_piece]
  rw [or_shl_of_testBit_false _ _ hbit,
    piecesFold_toggle b side piece square hside hpiece hsq, hok]
  simp [Nat.xor_assoc, Nat.xor_comm, natXor_left_comm]

/-- `move_piece` preserves the Zobrist invariant when the piece really
stands on the from-square and the to-square is empty and different. -/
theorem zobristOk_move (b : Board) (side piece fromSq toSq : Nat)
    (hside : side < 2) (hpiece : piece < 6)
    (hfrom : fromSq < 64) (hto : toSq < 64) (hne : toSq ≠ fromSq)
    (hbit : (b.bb_pieces side piece).testBit toSq = false)
    (hok : zobristOk b) : zobristOk (b.move_piece side piece fromSq toSq) := by
  unfold Board.move_piece
  refine zobristOk_put _ side piece toSq hside hpiece hto ?_
    (zobristOk_remove b side piece fromSq hside hpiece hfrom hok)
  show ((b.remove_piece side piece fromSq).bb_pieces side piece).testBit toSq = false
  simp only [Board.remove_piece]
  rw [update2_same]
  have hpow : (1 <<< fromSq) = 2 ^ fromSq := by simp [Nat.shiftLeft_eq]
  rw [hpow]
  simp [Nat.testBit_xor, Nat.testBit_two_pow,
    decide_eq_false (by omega : ¬ fromSq = toSq), hbit]

/-- `set_ep_square` preserves the Zobrist invariant. -/
theorem zobristOk_set_ep (b : Board) (square : Nat) (hok : zobristOk b) :
    zobristOk (b.set_ep_square square) := by
  unfold zobristOk Board.init_zobrist_key at hok ⊢
  simp only [Board.set_ep_square]
  rw [hok]
  simp [Nat.xor_assoc, Nat.xor_comm, natXor_left_comm, natXor_cancel_left]

/-- `clear_ep_square` preserves the Zobrist invariant. -/
theorem zobristOk_clear_ep (b : Board) (hok : zobristOk b) :
    zobristOk b.clear_ep_square := by
  unfold zobristOk Board.init_zobrist_key at hok ⊢
  simp only [Board.clear_ep_square]
  rw [hok]
  simp [Nat.xor_assoc, Nat.xor_comm, natXor_left_comm, natXor_cancel_left]

/-- `swap_side` preserves the Zobrist invariant. -/
theorem zobristOk_swap (b : Board) (hok : zobristOk b) :
    zobristOk b.swap_side := by
  unfold zobristOk Board.init_zobrist_key at hok ⊢
  simp only [Board.swap_side]
  rw [hok]
  simp [Nat.xor_assoc, Nat.xor_comm, natXor_left_comm, natXor_cancel_left]

/-- `update_castling_permissions` preserves the Zobrist invariant. -/
theorem zobristOk_castling (b : Board) (perm : Nat) (hok : zobristOk b) :
    zobristOk (b.update_castling_permissions perm) := by
  unfold zobristOk Board.init_zobrist_key at hok ⊢
  simp only [Board.update_castling_permissions]
  rw [hok]
  simp [Nat.xor_assoc, Nat.xor_comm, natXor_left_comm, natXor_cancel_left]

/-- C1: on a board whose incrementally maintained Zobrist key equals the
fresh recomputation `init_zobrist_key`, every board mutator (`put_piece`
on an empty target bit, `remove_piece`, `move_piece` of a present piece
to an empty different square, `set_ep_square`, `clear_ep_square`,
`swap_side`, `update_castling_permissions`) preserves that equality; the
bit-occupancy side conditions hold on every reachable board. -/
theorem zobrist_key_matches_recomputation (b : Board)
    (side piece square toSq perm : Nat) (ep : Nat)
    (hok : zobristOk b)
    (hside : side < 2) (hpiece : piece < 6) (hsq : square < 64) (hto : toSq < 64) :
    ((b.bb_pieces side piece).testBit square = false →
        zobristOk (b.put_piece side piece square)) ∧
    zobristOk (b.remove_piece side piece square) ∧
    (toSq ≠ square → (b.bb_pieces side piece).testBit toSq = false →
        zobristOk (b.move_piece side piece square toSq)) ∧
    zobristOk (b.set_ep_square ep) ∧
    zobristOk b.clear_ep_square ∧
    zobristOk b.swap_side ∧
    zobristOk (b.update_castling_permissions perm) :=
  ⟨fun hbit => zobristOk_put b side piece square hside hpiece hsq hbit hok,
   zobristOk_remove b side piece square hside hpiece hsq hok,
   fun hne hbit =>
     zobristOk_move b side piece square toSq hside hpiece hsq hto hne hbit hok,
   zobristOk_set_ep b ep hok,
   zobristOk_clear_ep b hok,
   zobristOk_swap b hok,
   zobristOk_castling b perm hok⟩

/-- A concrete Zobrist table used only to instantiate witnesses. -/
def zrTest : ZobristRandoms :=
  { piece := fun side piece square => side * 1000 + piece * 64 + square + 1,
    castling := fun c => c + 7,
    side := fun s => s + 3,
    en_passant := fun e => match e with | none => 11 | some s => s + 13 }

/-- A concrete empty board whose stored Zobrist key is the correct hash of
its (empty) content, used only to instantiate witnesses. -/
def emptyTestBoard : Board :=
  { bb_pieces := fun _ _ => 0,
    bb_side := fun _ => 0,
    game_state := { GameState.new with zobrist_key := 15 },
    history := History.new_for_search,
    piece_list := fun _ => Pieces.NONE,
    zr := zrTest }

/-- Witness for the C1 theorem: all hypotheses hold at a concrete board,
and the conclusion follows by applying the theorem there. -/
theorem zobrist_key_matches_recomputation_witness :
    zobristOk emptyTestBoard ∧
    (emptyTestBoard.bb_pieces 0 1).testBit 3 = false ∧
    zobristOk (emptyTestBoard.put_piece 0 1 3) ∧
    zobristOk (emptyTestBoard.remove_piece 0 1 3) ∧
    zobristOk (emptyTestBoard.move_piece 0 1 3 5) ∧
    zobristOk (emptyTestBoard.set_ep_square 20) ∧
    zobristOk emptyTestBoard.clear_ep_square ∧
    zobristOk emptyTestBoard.swap_side ∧
    zobristOk (emptyTestBoard.update_castling_permissions 5) := by
  have hok : zobristOk emptyTestBoard := by
    show emptyTestBoard.game_state.zobrist_key = emptyTestBoard.init_zobrist_key
    decide
  have h := zobrist_key_matches_recomputation emptyTestBoard 0 1 3 5 5 20 hok
    (by decide) (by decide) (by decide) (by decide)
  exact ⟨hok, by decide, h.1 (by decide), h.2.1,
    h.2.2.1 (by decide) (by decide),
    h.2.2.2.1, h.2.2.2.2.1, h.2.2.2.2.2.1, h.2.2.2.2.2.2⟩

/-! ## C10: overshoot factor selection in Search::out_of_time -/

/-- `CRITICAL_TIME` (search/time.rs line 30). -/
def CRITICAL_TIME : Nat := 1000

/-- `VERY_LOW_TIME` (search/time.rs line 31). -/
def VERY_LOW_TIME : Nat := 500

/-- `LOW_TIME` (search/time.rs line 32). -/
def LOW_TIME : Nat := 2000

/-- `OK_TIME` (search/time.rs line 33). -/
def OK_TIME : Nat := 5000

/-- `OVERSHOOT_CRITICAL = 1.0` (search/time.rs line 55). -/
def OVERSHOOT_CRITICAL : ℚ := 1

/-- `OVERSHOOT_VERY_LOW = 1.1` (search/time.rs line 56), as an exact
rational. -/
def OVERSHOOT_VERY_LOW : ℚ := 11 / 10

/-- `OVERSHOOT_LOW = 1.2` (search/time.rs line 57). -/
def OVERSHOOT_LOW : ℚ := 12 / 10

/-- `OVERSHOOT_OK = 1.3` (search/time.rs line 58). -/
def OVERSHOOT_OK : ℚ := 13 / 10

/-- `OVERSHOOT_COMFORTABLE = 1.5` (search/time.rs line 59). -/
def OVERSHOOT_COMFORTABLE : ℚ := 15 / 10

/-- The overshoot-factor `match` of `Search::out_of_time` (search/time.rs
lines 75-81), arms tried in source order.  The guards compare the `u128`
allocation against integer constants, so arm selection is exact; the f64
factor constants are modelled as exact rationals. -/
def overshoot_factor (allocated : Nat) : ℚ :=
  if allocated ≤ CRITICAL_TIME then OVERSHOOT_CRITICAL
  else if allocated ≤ VERY_LOW_TIME then OVERSHOOT_VERY_LOW
  else if allocated ≤ LOW_TIME then OVERSHOOT_LOW
  else if allocated ≤ OK_TIME then OVERSHOOT_OK
  else OVERSHOOT_COMFORTABLE

/-- The time limit of `Search::out_of_time` (search/time.rs line 84):
`(overshoot_factor * allocated as f64).round() as u128`.  Rust `f64::round`
rounds half away from zero and the operand is nonnegative, so it is the
floor of the value plus one half; in the factor-1.0 branch the f64
product is exact, so this model matches the code bit for bit there. -/
def time_limit (allocated : Nat) : Int :=
  Int.floor (overshoot_factor allocated * allocated + 1 / 2)

/-- The result of `Search::out_of_time` (search/time.rs line 89):
the elapsed time has reached the limit. -/
def out_of_time (elapsed allocated : Nat) : Bool :=
  decide (time_limit allocated ≤ (elapsed : Int))

/-- C10: because every allocation of at most 500 ms already matches the
first arm (allocated <= 1000), the `OVERSHOOT_VERY_LOW` arm is
unreachable; and for any allocation of at most 1000 ms the factor is
exactly 1, the time limit equals the allocation, and `out_of_time`
degenerates to the comparison elapsed >= allocated. -/
theorem overshoot_very_low_unreachable (a : Nat) (h : a ≤ 1000) :
    (∀ x : Nat, overshoot_factor x ≠ OVERSHOOT_VERY_LOW) ∧
    overshoot_factor a = 1 ∧
    time_limit a = a ∧
    (∀ e : Nat, out_of_time e a = decide (a ≤ e)) := by
  have hsel : ∀ x : Nat, overshoot_factor x ≠ OVERSHOOT_VERY_LOW := by
    intro x
    unfold overshoot_factor OVERSHOOT_CRITICAL OVERSHOOT_VERY_LOW OVERSHOOT_LOW
      OVERSHOOT_OK OVERSHOOT_COMFORTABLE CRITICAL_TIME VERY_LOW_TIME LOW_TIME OK_TIME
    split_ifs with h1 h2 h3 h4 <;> first | omega | norm_num
  have hfac : overshoot_factor a = 1 := by
    unfold overshoot_factor CRITICAL_TIME
    rw [if_pos h]
    rfl
  have hlim : time_limit a = a := by
    unfold time_limit
    rw [hfac]
    rw [Int.floor_eq_iff]
    constructor
    · push_cast; linarith
    · push_cast; linarith
  refine ⟨hsel, hfac, hlim, fun e => ?_⟩
  unfold out_of_time
  rw [hlim]
  simp

/-- Witness for the C10 theorem at allocation 700 ms. -/
theorem overshoot_very_low_unreachable_witness :
    700 ≤ 1000 ∧ overshoot_factor 700 = 1 ∧ time_limit 700 = 700 ∧
    out_of_time 699 700 = false ∧ out_of_time 700 700 = true := by
  have h := overshoot_very_low_unreachable 700 (by omega)
  refine ⟨by omega, h.2.1, h.2.2.1, ?_, ?_⟩
  · rw [h.2.2.2 699]; decide
  · rw [h.2.2.2 700]; decide

/-! ## C9: Board::in_check only sees king, knight and pawn attacks -/

/-- Attack-set construction by board deltas, shared by the king, knight
and pawn arms of `Board::get_attacks_from` (board.rs lines 204-265): for
every (file, rank) delta that stays on the board, set the target bit. -/
def deltaAttacks (square : Nat) (deltas : List (Int × Int)) : Nat :=
  deltas.foldl (fun attacks d =>
    let nf : Int := (square % 8 : Nat) + d.1
    let nr : Int := (square / 8 : Nat) + d.2
    if 0 ≤ nf ∧ nf < 8 ∧ 0 ≤ nr ∧ nr < 8 then
      attacks ||| (1 <<< (nr * 8 + nf).toNat)
    else attacks) 0

/-- `Board::get_attacks_from` (board.rs lines 204-265): king, knight and
pawn attacks are delta sets (the pawn direction is taken from the side to
move); every other piece type - the sliders - gets the empty bitboard
(the `_ => 0` arm). -/
def Board.get_attacks_from (b : Board) (piece square : Nat) : Nat :=
  if piece = Pieces.KING then
    deltaAttacks square
      [(1, 0), (1, 1), (0, 1), (-1, 1), (-1, 0), (-1, -1), (0, -1), (1, -1)]
  else if piece = Pieces.KNIGHT then
    deltaAttacks square
      [(-2, -1), (-2, 1), (-1, -2), (-1, 2), (1, -2), (1, 2), (2, -1), (2, 1)]
  else if piece = Pieces.PAWN then
    deltaAttacks square
      [(-1, if b.us = Sides.WHITE then -1 else 1),
       (1, if b.us = Sides.WHITE then -1 else 1)]
  else 0

/-- `Board::in_check` (board.rs lines 180-201): scan every opposing piece
of every type and report whether some attack set (per `get_attacks_from`)
contains the side-to-move king square. -/
def Board.in_check (b : Board) : Bool :=
  (List.range NrOf.PIECE_TYPES).any (fun piece =>
    (List.range 64).any (fun sq =>
      (b.bb_pieces b.opponent piece).testBit sq &&
      decide (0 < b.get_attacks_from piece sq &&& (1 <<< b.king_square b.us))))

/-- C9: the slider arms of `get_attacks_from` yield the empty bitboard,
so if no opposing king, knight or pawn attacks the side-to-move king
square (per those same delta attack sets), `in_check` returns false -
in particular in every position whose king is attacked only by enemy
sliding pieces. -/
theorem in_check_ignores_sliders (b : Board)
    (hK : ∀ sq, sq < 64 →
      ¬((b.bb_pieces b.opponent Pieces.KING).testBit sq = true ∧
        0 < b.get_attacks_from Pieces.KING sq &&& (1 <<< b.king_square b.us)))
    (hN : ∀ sq, sq < 64 →
      ¬((b.bb_pieces b.opponent Pieces.KNIGHT).testBit sq = true ∧
        0 < b.get_attacks_from Pieces.KNIGHT sq &&& (1 <<< b.king_square b.us)))
    (hP : ∀ sq, sq < 64 →
      ¬((b.bb_pieces b.opponent Pieces.PAWN).testBit sq = true ∧
        0 < b.get_attacks_from Pieces.PAWN sq &&& (1 <<< b.king_square b.us))) :
    (∀ sq, b.get_attacks_from Pieces.QUEEN sq = 0 ∧
           b.get_attacks_from Pieces.ROOK sq = 0 ∧
           b.get_attacks_from Pieces.BISHOP sq = 0) ∧
    b.in_check = false := by
  have hsl : ∀ sq, b.get_attacks_from Pieces.QUEEN sq = 0 ∧
      b.get_attacks_from Pieces.ROOK sq = 0 ∧
      b.get_attacks_from Pieces.BISHOP sq = 0 := by
    intro sq
    refine ⟨?_, ?_, ?_⟩ <;>
      simp [Board.get_attacks_from, Pieces.QUEEN, Pieces.ROOK, Pieces.BISHOP,
        Pieces.KING, Pieces.KNIGHT, Pieces.PAWN]
  refine ⟨hsl, ?_⟩
  unfold Board.in_check
  rw [List.any_eq_false]
  intro piece hmem
  rw [Bool.not_eq_true, List.any_eq_false]
  intro sq hsq
  rw [Bool.not_eq_true]
  simp only [List.mem_range] at hmem hsq
  have hfalse : ∀ (attacker : Nat → Nat → Prop),
      (¬((b.bb_pieces b.opponent piece).testBit sq = true ∧
        0 < b.get_attacks_from piece sq &&& (1 <<< b.king_square b.us))) →
      ((b.bb_pieces b.opponent piece).testBit sq &&
        decide (0 < b.get_attacks_from piece sq &&& (1 <<< b.king_square b.us)))
        = false := by
    intro _ hno
    cases htb : (b.bb_pieces b.opponent piece).testBit sq
    · simp
    · simp only [htb, Bool.true_and, decide_eq_false_iff_not]
      intro hlt
      exact hno ⟨htb, hlt⟩
  have hzero : ∀ piece2, b.get_attacks_from piece2 sq = 0 →
      ((b.bb_pieces b.opponent piece2).testBit sq &&
        decide (0 < b.get_attacks_from piece2 sq &&& (1 <<< b.king_square b.us)))
        = false := by
    intro piece2 hz
    simp [hz]
  unfold NrOf.PIECE_TYPES at hmem
  interval_cases piece
  · exact hfalse (fun _ _ => True) (hK sq hsq)
  · exact hzero 1 (hsl sq).1
  · exact hzero 2 (hsl sq).2.1
  · exact hzero 3 (hsl sq).2.2
  · exact hfalse (fun _ _ => True) (hN sq hsq)
  · exact hfalse (fun _ _ => True) (hP sq hsq)

/-- A concrete board for the C9 witness: white king on e1, white to move,
and the only black piece a rook on e2 - the king is attacked by a slider
alone, yet `in_check` reports false. -/
def sliderCheckBoard : Board :=
  { bb_pieces := fun side piece =>
      if side = 0 ∧ piece = 0 then 1 <<< 4
      else if side = 1 ∧ piece = 2 then 1 <<< 12
      else 0,
    bb_side := fun side => if side = 0 then 1 <<< 4 else 1 <<< 12,
    game_state := GameState.new,
    history := History.new_for_search,
    piece_list := fun _ => Pieces.NONE,
    zr := zrTest }

/-- Witness for the C9 theorem: on `sliderCheckBoard` the hypotheses hold
(no black king, knight or pawn exists, let alone attacks) and `in_check`
evaluates to false although the black rook on e2 attacks the king on e1. -/
theorem in_check_ignores_sliders_witness :
    (∀ sq, sliderCheckBoard.get_attacks_from Pieces.QUEEN sq = 0 ∧
           sliderCheckBoard.get_attacks_from Pieces.ROOK sq = 0 ∧
           sliderCheckBoard.get_attacks_from Pieces.BISHOP sq = 0) ∧
    sliderCheckBoard.in_check = false :=
  in_check_ignores_sliders sliderCheckBoard
    (by decide) (by decide) (by decide)

/-! ## C5: mobility evaluation (evaluation/mobility.rs) -/

/-- `bits::white_pawn_attacks` (misc/bits.rs lines 229-233). -/
def white_pawn_attacks (pawns : Nat) : Nat :=
  shl64 (pawns &&& compl64 BB_FILE_A) 7 ||| shl64 (pawns &&& compl64 BB_FILE_H) 9

/-- `bits::black_pawn_attacks` (misc/bits.rs lines 236-240). -/
def black_pawn_attacks (pawns : Nat) : Nat :=
  ((pawns &&& compl64 BB_FILE_A) >>> 9) ||| ((pawns &&& compl64 BB_FILE_H) >>> 7)

/-- `MoveGenerator::get_non_slider_attacks` (the movegen sources are not
provided).  Modelled from the spec: precomputed king and knight attack
tables; the delta sets below are the standard ones (and agree with the
king/knight arms of board.rs `get_attacks_from`). -/
def get_non_slider_attacks (piece square : Nat) : Nat :=
  if piece = Pieces.KING then
    deltaAttacks square
      [(1, 0), (1, 1), (0, 1), (-1, 1), (-1, 0), (-1, -1), (0, -1), (1, -1)]
  else if piece = Pieces.KNIGHT then
    deltaAttacks square
      [(-2, -1), (-2, 1), (-1, -2), (-1, 2), (1, -2), (1, 2), (2, -1), (2, 1)]
  else 0

/-- One blocker-limited attack ray: walk from (f, r) in direction
(df, dr), setting each on-board square and stopping at (and including)
the first occupied square.  Fuel 8 suffices on an 8x8 board. -/
def rayAux (occ : Nat) (f r df dr : Int) : Nat → Nat
  | 0 => 0
  | n + 1 =>
    let nf := f + df
    let nr := r + dr
    if 0 ≤ nf ∧ nf < 8 ∧ 0 ≤ nr ∧ nr < 8 then
      if occ.testBit (nr * 8 + nf).toNat then 1 <<< (nr * 8 + nf).toNat
      else (1 <<< (nr * 8 + nf).toNat) ||| rayAux occ nf nr df dr n
    else 0

/-- A full ray from a square index. -/
def rayAttacks (occ square : Nat) (df dr : Int) : Nat :=
  rayAux occ ((square % 8 : Nat)) ((square / 8 : Nat)) df dr 8

/-- `MoveGenerator::get_slider_attacks` (the movegen sources are not
provided).  Modelled from the spec: the magic-bitboard lookup produces,
for a rook / bishop / queen on `square` with the given occupancy, exactly
the blocker-limited ray attack set. -/
def get_slider_attacks (piece square occ : Nat) : Nat :=
  if piece = Pieces.ROOK then
    rayAttacks occ square 1 0 ||| rayAttacks occ square (-1) 0 |||
    rayAttacks occ square 0 1 ||| rayAttacks occ square 0 (-1)
  else if piece = Pieces.BISHOP then
    rayAttacks occ square 1 1 ||| rayAttacks occ square 1 (-1) |||
    rayAttacks occ square (-1) 1 ||| rayAttacks occ square (-1) (-1)
  else if piece = Pieces.QUEEN then
    rayAttacks occ square 1 0 ||| rayAttacks occ square (-1) 0 |||
    rayAttacks occ square 0 1 ||| rayAttacks occ square 0 (-1) |||
    rayAttacks occ square 1 1 ||| rayAttacks occ square 1 (-1) |||
    rayAttacks occ square (-1) 1 ||| rayAttacks occ square (-1) (-1)
  else 0

/-- `KNIGHT_MOBILITY` (evaluation/mobility.rs line 35). -/
def KNIGHT_MOBILITY : List Int := [-25, -11, -3, 3, 8, 12, 15, 17, 18]

/-- `BISHOP_MOBILITY` (evaluation/mobility.rs line 36). -/
def BISHOP_MOBILITY : List Int :=
  [-25, -11, -3, 3, 8, 12, 15, 17, 18, 20, 22, 23, 24, 25]

/-- `ROOK_MOBILITY` (evaluation/mobility.rs line 37). -/
def ROOK_MOBILITY : List Int :=
  [-25, -11, -3, 3, 8, 12, 15, 17, 18, 20, 22, 23, 24, 25, 26]

/-- `QUEEN_MOBILITY` (evaluation/mobility.rs lines 38-41). -/
def QUEEN_MOBILITY : List Int :=
  [-25, -11, -3, 3, 8, 12, 15, 17, 18, 20, 22, 23, 24, 25, 26, 27, 28, 29,
   30, 31, 32, 33, 34, 35, 36, 37, 38, 39]

/-- `ROOK_OPEN_FILE_BONUS` (evaluation/mobility.rs line 44). -/
def ROOK_OPEN_FILE_BONUS : Int := 30

/-- `ROOK_HALF_OPEN_FILE_BONUS` (evaluation/mobility.rs line 45). -/
def ROOK_HALF_OPEN_FILE_BONUS : Int := 15

/-- `BISHOP_LONG_DIAGONAL_BONUS` (evaluation/mobility.rs line 46). -/
def BISHOP_LONG_DIAGONAL_BONUS : Int := 10

/-- `get_knight_mobility_bonus` (evaluation/mobility.rs lines 120-126):
index the table, clamping to its last entry. -/
def get_knight_mobility_bonus (mobility_count : Nat) : Int :=
  if mobility_count < KNIGHT_MOBILITY.length then KNIGHT_MOBILITY.getD mobility_count 0
  else KNIGHT_MOBILITY.getD (KNIGHT_MOBILITY.length - 1) 0

/-- `get_bishop_mobility_bonus` (evaluation/mobility.rs lines 128-134). -/
def get_bishop_mobility_bonus (mobility_count : Nat) : Int :=
  if mobility_count < BISHOP_MOBILITY.length then BISHOP_MOBILITY.getD mobility_count 0
  else BISHOP_MOBILITY.getD (BISHOP_MOBILITY.length - 1) 0

/-- `get_rook_mobility_bonus` (evaluation/mobility.rs lines 136-142). -/
def get_rook_mobility_bonus (mobility_count : Nat) : Int :=
  if mobility_count < ROOK_MOBILITY.length then ROOK_MOBILITY.getD mobility_count 0
  else ROOK_MOBILITY.getD (ROOK_MOBILITY.length - 1) 0

/-- `get_queen_mobility_bonus` (evaluation/mobility.rs lines 144-150). -/
def get_queen_mobility_bonus (mobility_count : Nat) : Int :=
  if mobility_count < QUEEN_MOBILITY.length then QUEEN_MOBILITY.getD mobility_count 0
  else QUEEN_MOBILITY.getD (QUEEN_MOBILITY.length - 1) 0

/-- `Board::square_on_file_rank` (board/utils.rs is not provided).
Modelled from the spec: with A1 = 0 and the LSB on A1, the file is the
square modulo 8 and the rank the square divided by 8. -/
def square_on_file_rank (sq : Nat) : Nat × Nat := (sq % 8, sq / 8)

/-- `evaluate_rook_file_bonus` (evaluation/mobility.rs lines 152-168). -/
def evaluate_rook_file_bonus (b : Board) (rook_square side : Nat) : Int :=
  let file := (square_on_file_rank rook_square).1
  let file_bb := BB_FILES file
  let friendly_pawns := b.get_pieces Pieces.PAWN side &&& file_bb
  let enemy_pawns := b.get_pieces Pieces.PAWN (side ^^^ 1) &&& file_bb
  if friendly_pawns = 0 ∧ enemy_pawns = 0 then ROOK_OPEN_FILE_BONUS
  else if friendly_pawns = 0 ∧ 0 < enemy_pawns then ROOK_HALF_OPEN_FILE_BONUS
  else 0

/-- `is_bishop_on_long_diagonal` (evaluation/mobility.rs lines 170-185). -/
def is_bishop_on_long_diagonal (square : Nat) (attacks : Nat) : Bool :=
  let long_diagonal_a1h8 : Nat := 0x8040201008040201
  let long_diagonal_h1a8 : Nat := 0x0102040810204080
  let square_bb := BB_SQUAARE square
  if 0 < square_bb &&& (long_diagonal_a1h8 ||| long_diagonal_h1a8) then
    decide (4 ≤ popcount (attacks &&& (long_diagonal_a1h8 ||| long_diagonal_h1a8)))
  else false

/-- Sum of `g` over the set bits of a 64-bit word, the accumulation
pattern of the four `while .. bits::next ..` mobility loops. -/
def sumOverBits (bb : Nat) (g : Nat → Int) : Int :=
  (List.range 64).foldl (fun acc s => if bb.testBit s then acc + g s else acc) 0

/-- `calculate_side_mobility` (evaluation/mobility.rs lines 63-118): for
each knight, bishop, rook and queen of `side`, index the per-piece bonus
table by the popcount of its attack set minus the side's own pieces
(`attacks & !own_pieces`), adding the bishop long-diagonal and the rook
open-file bonuses.  Note the binding `_opponent_pieces` of the source is
unused: opposing pawn attacks are never removed. -/
def calculate_side_mobility (b : Board) (side : Nat) : Int :=
  let occupancy := b.occupancy
  let own_pieces := b.bb_side side
  sumOverBits (b.get_pieces Pieces.KNIGHT side) (fun square =>
    let attacks := get_non_slider_attacks Pieces.KNIGHT square
    let legal_moves := attacks &&& compl64 own_pieces
    get_knight_mobility_bonus (popcount legal_moves))
  + sumOverBits (b.get_pieces Pieces.BISHOP side) (fun square =>
      let attacks := get_slider_attacks Pieces.BISHOP square occupancy
      let legal_moves := attacks &&& compl64 own_pieces
      get_bishop_mobility_bonus (popcount legal_moves)
      + (if is_bishop_on_long_diagonal square attacks then
          BISHOP_LONG_DIAGONAL_BONUS else 0))
  + sumOverBits (b.get_pieces Pieces.ROOK side) (fun square =>
      let attacks := get_slider_attacks Pieces.ROOK square occupancy
      let legal_moves := attacks &&& compl64 own_pieces
      get_rook_mobility_bonus (popcount legal_moves)
      + evaluate_rook_file_bonus b square side)
  + sumOverBits (b.get_pieces Pieces.QUEEN side) (fun square =>
      let attacks := get_slider_attacks Pieces.QUEEN square occupancy
      let legal_moves := attacks &&& compl64 own_pieces
      get_queen_mobility_bonus (popcount legal_moves))

/-- `evaluate_mobility` (evaluation/mobility.rs lines 48-53). -/
def evaluate_mobility (b : Board) : Int :=
  calculate_side_mobility b Sides.WHITE - calculate_side_mobility b Sides.BLACK

/-- The mobility computation as claim C5 words it: for each knight,
bishop, rook and queen of a side, index its per-piece bonus table by the
popcount of the piece's attack set excluding squares occupied by the
side's own pieces AND excluding squares attacked by the opposing pawns
(the extra diagonal/file bonuses as in the code). -/
def claimedSideMobility (b : Board) (side : Nat) : Int :=
  let occupancy := b.occupancy
  let own_pieces := b.bb_side side
  let enemy_pawn_attacks :=
    if side = Sides.WHITE then
      black_pawn_attacks (b.get_pieces Pieces.PAWN Sides.BLACK)
    else
      white_pawn_attacks (b.get_pieces Pieces.PAWN Sides.WHITE)
  sumOverBits (b.get_pieces Pieces.KNIGHT side) (fun square =>
    let attacks := get_non_slider_attacks Pieces.KNIGHT square
    let legal_moves := attacks &&& compl64 own_pieces &&& compl64 enemy_pawn_attacks
    get_knight_mobility_bonus (popcount legal_moves))
  + sumOverBits (b.get_pieces Pieces.BISHOP side) (fun square =>
      let attacks := get_slider_attacks Pieces.BISHOP square occupancy
      let legal_moves := attacks &&& compl64 own_pieces &&& compl64 enemy_pawn_attacks
      get_bishop_mobility_bonus (popcount legal_moves)
      + (if is_bishop_on_long_diagonal square attacks then
          BISHOP_LONG_DIAGONAL_BONUS else 0))
  + sumOverBits (b.get_pieces Pieces.ROOK side) (fun square =>
      let attacks := get_slider_attacks Pieces.ROOK square occupancy
      let legal_moves := attacks &&& compl64 own_pieces &&& compl64 enemy_pawn_attacks
      get_rook_mobility_bonus (popcount legal_moves)
      + evaluate_rook_file_bonus b square side)
  + sumOverBits (b.get_pieces Pieces.QUEEN side) (fun square =>
      let attacks := get_slider_attacks Pieces.QUEEN square occupancy
      let legal_moves := attacks &&& compl64 own_pieces &&& compl64 enemy_pawn_attacks
      get_queen_mobility_bonus (popcount legal_moves))

/-- A board refuting claim C5: a lone white knight on a1 and a lone black
pawn on c4.  The pawn attacks b3, one of the two knight destinations. -/
def mobilityCexBoard : Board :=
  { bb_pieces := fun side piece =>
      if side = 0 ∧ piece = Pieces.KNIGHT then 1 <<< 0
      else if side = 1 ∧ piece = Pieces.PAWN then 1 <<< 26
      else 0,
    bb_side := fun side => if side = 0 then 1 <<< 0 else 1 <<< 26,
    game_state := GameState.new,
    history := History.new_for_search,
    piece_list := fun _ => Pieces.NONE,
    zr := zrTest }

/-- Counterexample for C5 as stated: on `mobilityCexBoard` the code
counts both knight destinations (bonus -3 for mobility 2), while the
claimed rule - which also excludes the square b3 attacked by the black
pawn - would count one destination (bonus -11 for mobility 1). -/
theorem mobility_pawn_exclusion_cex :
    calculate_side_mobility mobilityCexBoard Sides.WHITE = -3 ∧
    claimedSideMobility mobilityCexBoard Sides.WHITE = -11 ∧
    calculate_side_mobility mobilityCexBoard Sides.WHITE ≠
      claimedSideMobility mobilityCexBoard Sides.WHITE := by
  refine ⟨by decide, by decide, by decide⟩

/-- Sum-over-bits as an independent filter/map/sum expression. -/
theorem sumOverBits_eq_filter_map_sum (bb : Nat) (g : Nat → Int) :
    sumOverBits bb g
      = ((((List.range 64).filter (fun s => bb.testBit s)).map g).sum) := by
  unfold sumOverBits
  have key : ∀ (L : List Nat) (a : Int),
      L.foldl (fun acc s => if bb.testBit s then acc + g s else acc) a
        = a + (((L.filter (fun s => bb.testBit s)).map g).sum) := by
    intro L
    induction L with
    | nil => intro a; simp
    | cons x xs ih =>
      intro a
      simp only [List.foldl_cons, List.filter_cons]
      cases hx : bb.testBit x <;> simp [hx, ih, add_assoc]
  rw [key]
  simp

/-- The amended C5 rule: per-piece bonus tables indexed by the popcount
of the attack set excluding only the squares occupied by the side's own
pieces, written as an independent sum over the side's piece squares. -/
def amendedSideMobility (b : Board) (side : Nat) : Int :=
  let own := b.bb_side side
  let occ := b.occupancy
  ((((List.range 64).filter
      (fun s => (b.bb_pieces side Pieces.KNIGHT).testBit s)).map (fun s =>
    get_knight_mobility_bonus
      (popcount (get_non_slider_attacks Pieces.KNIGHT s &&& compl64 own)))).sum)
  + ((((List.range 64).filter
      (fun s => (b.bb_pieces side Pieces.BISHOP).testBit s)).map (fun s =>
    get_bishop_mobility_bonus
      (popcount (get_slider_attacks Pieces.BISHOP s occ &&& compl64 own))
    + (if is_bishop_on_long_diagonal s (get_slider_attacks Pieces.BISHOP s occ)
        then BISHOP_LONG_DIAGONAL_BONUS else 0))).sum)
  + ((((List.range 64).filter
      (fun s => (b.bb_pieces side Pieces.ROOK).testBit s)).map (fun s =>
    get_rook_mobility_bonus
      (popcount (get_slider_attacks Pieces.ROOK s occ &&& compl64 own))
    + evaluate_rook_file_bonus b s side)).sum)
  + ((((List.range 64).filter
      (fun s => (b.bb_pieces side Pieces.QUEEN).testBit s)).map (fun s =>
    get_queen_mobility_bonus
      (popcount (get_slider_attacks Pieces.QUEEN s occ &&& compl64 own)))).sum)

/-- C5 amended: for every board and side, the mobility evaluation indexes
each per-piece bonus table by the popcount of the piece's attack set
excluding squares occupied by the side's own pieces (opposing pawn
attacks are not excluded). -/
theorem mobility_indexing_amended (b : Board) (side : Nat) :
    calculate_side_mobility b side = amendedSideMobility b side := by
  unfold calculate_side_mobility amendedSideMobility
  simp only [sumOverBits_eq_filter_map_sum, Board.get_pieces]

/-! ## The alpha-beta search (search/alpha_beta.rs, search/defs.rs) -/

/-- `INF` (search/defs.rs line 42). -/
def INF : Int := 25000

/-- `CHECKMATE` (search/defs.rs line 50). -/
def CHECKMATE : Int := 24000

/-- `STALEMATE` (search/defs.rs line 56). -/
def STALEMATE : Int := 0

/-- `NULL_MOVE_REDUCTION` (search/defs.rs line 100). -/
def NULL_MOVE_REDUCTION : Int := 3

/-- `LMR_REDUCTION` (search/defs.rs line 104). -/
def LMR_REDUCTION : Int := 1

/-- `LMR_MOVE_THRESHOLD` (search/defs.rs line 108). -/
def LMR_MOVE_THRESHOLD : Int := 4

/-- `LMR_LATE_THRESHOLD` (search/defs.rs line 112). -/
def LMR_LATE_THRESHOLD : Int := 8

/-- `LMR_LATE_REDUCTION` (search/defs.rs line 116). -/
def LMR_LATE_REDUCTION : Int := 1

/-- `LMR_MIN_DEPTH` (search/defs.rs line 120). -/
def LMR_MIN_DEPTH : Int := 4

/-- `MULTICUT_DEPTH` (search/defs.rs line 124). -/
def MULTICUT_DEPTH : Int := 4

/-- `MULTICUT_REDUCTION` (search/defs.rs line 127). -/
def MULTICUT_REDUCTION : Int := 3

/-- `MULTICUT_CUTOFFS` (search/defs.rs line 130). -/
def MULTICUT_CUTOFFS : Nat := 2

/-- `MULTICUT_MOVES` (search/defs.rs line 133). -/
def MULTICUT_MOVES : Nat := 4

/-- The move fields that `alpha_beta` inspects (movegen is not among the
provided sources; the accessors `captured`, `promoted`, `castling`,
`en_passant`, `piece`, `to` (here `to_sq`) follow the spec's packed-move description). -/
structure MoveData where
  piece : Nat
  to_sq : Nat
  captured : Nat
  promoted : Nat
  castling : Bool
  en_passant : Bool

/-- The context of one `alpha_beta` call.  `Search::alpha_beta` touches
many components whose sources are not provided (the move generator,
make/unmake, the evaluator driver, the transposition table, repetition
and material helpers of search/mod.rs) and it calls itself recursively;
all of those appear here as opaque parameters so that one unfolding of
the function body can be studied exactly as written:
* `terminated` - the `terminate != Nothing` test after `check_termination`;
* `timeUp` - `Search::time_up` inside the move loop;
* `inCheckNow` - `mg.square_attacked(board, opponent, king_square(us))`;
* `repetitionCount` - `Search::is_repetition` (spec: the number of
  earlier history entries with the same Zobrist key);
* `insufficientMaterial` - `Search::is_insufficient_material`;
* `ttProbe` - local-cache-then-global probe, `data.get(depth, ply,
  alpha, beta)`, returning the optional cutoff value;
* `generateMoves` - `generate_moves(.., MoveType::All)`, in the order
  the moves are picked (`pick_move` only permutes the scored list);
* `makeMove` - `board.make`, `none` when the move is illegal
  (make undoes it) and `some` of the moved board otherwise;
* `childSearch` - the recursive `alpha_beta` calls
  (depth, alpha, beta, the board after the move, the new ply);
* `quiescence`, `makeNullMove`, `givesCheck`, `isKiller`,
  `historyHigh` - the remaining callees, likewise abstracted. -/
structure SearchEnv (β : Type) where
  maxPly : Int
  terminated : Bool
  timeUp : Bool
  ttEnabled : Bool
  evaluate : β → Int
  inCheckNow : β → Bool
  repetitionCount : β → Nat
  insufficientMaterial : β → Bool
  ttProbe : β → Int → Int → Int → Int → Option Int
  generateMoves : β → List MoveData
  makeMove : β → MoveData → Option β
  makeNullMove : β → β
  childSearch : Int → Int → Int → β → Int → Int
  quiescence : Int → Int → β → Int → Int
  givesCheck : β → MoveData → Bool
  isKiller : Int → MoveData → Bool
  historyHigh : β → MoveData → Bool

/-- The null-move guard of `alpha_beta` (search/alpha_beta.rs lines
141-145): not at the root, depth strictly greater than
NULL_MOVE_REDUCTION, not in check, and material not insufficient. -/
def nullMoveGuard (is_root is_check insufficient : Bool) (depth : Int) : Bool :=
  !is_root && decide (NULL_MOVE_REDUCTION < depth) && !is_check && !insufficient

/-- The graduated repetition penalty (search/alpha_beta.rs lines 90-96). -/
def repetitionPenalty (current_eval : Int) : Int :=
  if 300 ≤ current_eval then -150
  else if 150 ≤ current_eval then -75
  else if 50 ≤ current_eval then -25
  else if current_eval ≤ -150 then 0
  else -10

/-- The multi-cut loop of `alpha_beta` (search/alpha_beta.rs lines
170-197) over the first `MULTICUT_MOVES` moves: count reduced
null-window fail-highs; report true (return beta) after
`MULTICUT_CUTOFFS` of them. -/
def multicutLoop {β : Type} (env : SearchEnv β) (board : β)
    (depth beta ply : Int) : List MoveData → Nat → Bool
  | [], _ => false
  | m :: rest, cutoffs =>
    match env.makeMove board m with
    | none => multicutLoop env board depth beta ply rest cutoffs
    | some b2 =>
      let score := -(env.childSearch (depth - 1 - MULTICUT_REDUCTION)
        (-beta) (-beta + 1) b2 (ply + 1))
      if beta ≤ score then
        if MULTICUT_CUTOFFS ≤ cutoffs + 1 then true
        else multicutLoop env board depth beta ply rest (cutoffs + 1)
      else multicutLoop env board depth beta ply rest cutoffs

/-- The mutable state of the main move loop of `alpha_beta`:
the running alpha, the best score so far, the number of legal moves
found, and whether the loop was left by break. -/
structure LoopState where
  alpha : Int
  best : Int
  legal : Nat
  done : Bool

/-- The main move loop of `alpha_beta` (search/alpha_beta.rs lines
210-367): per move - time check, make (skip when illegal), the LMR /
PVS / full-window child searches, terminate check, best/alpha update
and beta cutoff.  The PV, TT and root-analysis bookkeeping does not
influence the returned score and is omitted. -/
def mainLoop {β : Type} (env : SearchEnv β) (board : β)
    (depth beta ply : Int) (isCheck : Bool) :
    List MoveData → LoopState → LoopState
  | [], st => st
  | m :: rest, st =>
    if st.done then st
    else if env.timeUp then st
    else match env.makeMove board m with
      | none => mainLoop env board depth beta ply isCheck rest st
      | some b2 =>
        let legal2 := st.legal + 1
        let is_quiet := m.captured == 0 && m.promoted == 0 &&
          !m.castling && !m.en_passant
        let gives_check := if is_quiet then env.givesCheck board m else false
        let is_killer := env.isKiller (ply + 1) m
        let high_history := env.historyHigh b2 m
        let lmr_applies := decide (LMR_MIN_DEPTH ≤ depth) && !isCheck &&
          is_quiet && !gives_check && !is_killer && !high_history &&
          decide (LMR_MOVE_THRESHOLD ≤ (legal2 : Int))
        let score :=
          if 1 < legal2 then
            if lmr_applies then
              let reduction := if LMR_LATE_THRESHOLD < (legal2 : Int)
                then LMR_LATE_REDUCTION else LMR_REDUCTION
              let safe_reduction := if depth ≤ 6 then min reduction 1 else reduction
              let reduced_depth := max 1 (depth - 1 - safe_reduction)
              let s1 := -(env.childSearch reduced_depth
                (-st.alpha - 1) (-st.alpha) b2 (ply + 1))
              if st.alpha < s1 then
                let s2 := -(env.childSearch (depth - 1)
                  (-st.alpha - 1) (-st.alpha) b2 (ply + 1))
                if st.alpha < s2 ∧ s2 < beta then
                  -(env.childSearch (depth - 1) (-beta) (-st.alpha) b2 (ply + 1))
                else s2
              else s1
            else
              let s1 := -(env.childSearch (depth - 1)
                (-st.alpha - 1) (-st.alpha) b2 (ply + 1))
              if st.alpha < s1 ∧ s1 < beta then
                -(env.childSearch (depth - 1) (-beta) (-st.alpha) b2 (ply + 1))
              else s1
          else -(env.childSearch (depth - 1) (-beta) (-st.alpha) b2 (ply + 1))
        if env.terminated then { st with legal := legal2, done := true }
        else if st.best < score then
          if st.alpha < score then
            if beta ≤ score then
              { alpha := score, best := score, legal := legal2, done := true }
            else mainLoop env board depth beta ply isCheck rest
              { alpha := score, best := score, legal := legal2, done := false }
          else mainLoop env board depth beta ply isCheck rest
            { st with best := score, legal := legal2 }
        else mainLoop env board depth beta ply isCheck rest
          { st with legal := legal2 }

/-- The part of `alpha_beta` after the transposition-table probe
(search/alpha_beta.rs lines 140-404): null-move pruning, multi-cut, the
main move loop, and the mate/stalemate epilogue when no legal move was
found. -/
def alphaBetaMain {β : Type} (env : SearchEnv β) (depth alpha beta : Int)
    (board : β) (ply : Int) (is_root is_check : Bool) : Int :=
  let null_cut :=
    if nullMoveGuard is_root is_check (env.insufficientMaterial board) depth then
      decide (beta ≤ -(env.childSearch (depth - 1 - NULL_MOVE_REDUCTION)
        (-beta) (-beta + 1) (env.makeNullMove board) (ply + 1)))
    else false
  if null_cut then beta
  else
    let move_list := env.generateMoves board
    let multicut :=
      if !is_root && decide (MULTICUT_DEPTH ≤ depth) && !is_check then
        multicutLoop env board depth beta ply (move_list.take MULTICUT_MOVES) 0
      else false
    if multicut then beta
    else
      let st := mainLoop env board depth beta ply is_check move_list
        { alpha := alpha, best := -INF, legal := 0, done := false }
      if st.legal = 0 then
        if is_check then -CHECKMATE + ply else STALEMATE
      else st.best

/-- One unfolding of `Search::alpha_beta` (search/alpha_beta.rs lines
41-404), in source order: the termination probe, the MAX_PLY cap, the
check extension, the quiescence horizon, the repetition penalty, the
TT probe (whose value is returned only off the root), then
`alphaBetaMain`. -/
def alphaBeta {β : Type} (env : SearchEnv β) (depth0 alpha beta : Int)
    (board : β) (ply : Int) : Int :=
  let is_root := ply == 0
  if env.terminated then 0
  else if env.maxPly ≤ ply then env.evaluate board
  else
    let is_check := env.inCheckNow board
    let depth := if is_check then depth0 + 1 else depth0
    if depth ≤ 0 then env.quiescence alpha beta board ply
    else if !is_root && decide (0 < env.repetitionCount board) then
      repetitionPenalty (env.evaluate board) * ((env.repetitionCount board : Int) + 1)
    else
      match (if env.ttEnabled then env.ttProbe board depth ply alpha beta else none) with
      | some v =>
        if is_root then alphaBetaMain env depth alpha beta board ply is_root is_check
        else v
      | none => alphaBetaMain env depth alpha beta board ply is_root is_check

/-- If every move in the list is rejected by `make`, the multi-cut loop
never fires. -/
theorem multicutLoop_all_illegal {β : Type} (env : SearchEnv β) (board : β)
    (depth beta ply : Int) (L : List MoveData) (cutoffs : Nat)
    (h : ∀ m ∈ L, env.makeMove board m = none) :
    multicutLoop env board depth beta ply L cutoffs = false := by
  induction L generalizing cutoffs with
  | nil => rfl
  | cons m rest ih =>
    unfold multicutLoop
    rw [h m (List.mem_cons_self _ _)]
    exact ih cutoffs (fun x hx => h x (List.mem_cons_of_mem _ hx))

/-- If every move in the list is rejected by `make`, the main move loop
leaves its state unchanged (in particular no legal move is counted). -/
theorem mainLoop_all_illegal {β : Type} (env : SearchEnv β) (board : β)
    (depth beta ply : Int) (isCheck : Bool) (L : List MoveData)
    (st : LoopState) (h : ∀ m ∈ L, env.makeMove board m = none) :
    mainLoop env board depth beta ply isCheck L st = st := by
  induction L generalizing st with
  | nil => rfl
  | cons m rest ih =>
    unfold mainLoop
    rw [h m (List.mem_cons_self _ _)]
    cases hd : st.done
    · cases ht : env.timeUp
      · simp only [hd, ht, Bool.false_eq_true, if_false]
        exact ih st (fun x hx => h x (List.mem_cons_of_mem _ hx))
      · simp [hd, ht]
    · simp [hd]

/-- When every pseudo-legal move is rejected by `make` and neither the
null move nor multi-cut produces a cutoff, `alphaBetaMain` reaches the
no-legal-move epilogue. -/
theorem alphaBetaMain_no_legal_moves {β : Type} (env : SearchEnv β)
    (board : β) (depth alpha beta ply : Int) (is_root is_check : Bool)
    (hnull : nullMoveGuard is_root is_check (env.insufficientMaterial board)
        depth = true →
      -(env.childSearch (depth - 1 - NULL_MOVE_REDUCTION) (-beta) (-beta + 1)
        (env.makeNullMove board) (ply + 1)) < beta)
    (hmoves : ∀ m ∈ env.generateMoves board, env.makeMove board m = none) :
    alphaBetaMain env depth alpha beta board ply is_root is_check
      = if is_check then -CHECKMATE + ply else STALEMATE := by
  unfold alphaBetaMain
  have hnc : (if nullMoveGuard is_root is_check (env.insufficientMaterial board) depth then
      decide (beta ≤ -(env.childSearch (depth - 1 - NULL_MOVE_REDUCTION)
        (-beta) (-beta + 1) (env.makeNullMove board) (ply + 1)))
    else false) = false := by
    by_cases hg : nullMoveGuard is_root is_check (env.insufficientMaterial board)
        depth = true
    · rw [if_pos hg, decide_eq_false_iff_not]
      exact not_le.mpr (hnull hg)
    · rw [if_neg hg]
  rw [hnc]
  simp only [Bool.false_eq_true, if_false]
  have hmc : (if !is_root && decide (MULTICUT_DEPTH ≤ depth) && !is_check then
      multicutLoop env board depth beta ply
        ((env.generateMoves board).take MULTICUT_MOVES) 0
    else false) = false := by
    by_cases hc : (!is_root && decide (MULTICUT_DEPTH ≤ depth) && !is_check) = true
    · rw [if_pos hc]
      exact multicutLoop_all_illegal env board depth beta ply _ 0
        (fun m hm => hmoves m (List.take_subset _ _ hm))
    · rw [if_neg hc]
  rw [hmc]
  simp only [Bool.false_eq_true, if_false]
  rw [mainLoop_all_illegal env board depth beta ply is_check _ _ hmoves]
  simp

/-- C2: if `alpha_beta` reaches its move loop (not terminated, below the
ply cap, positive depth after the check extension, no repetition return,
no transposition-table return, no null-move or multi-cut beta cutoff)
and every generated pseudo-legal move is rejected by `make`, it returns
the mate score -CHECKMATE + ply when the side to move is in check and
the stalemate score 0 otherwise. -/
theorem alpha_beta_no_legal_moves {β : Type} (env : SearchEnv β) (board : β)
    (depth0 alpha beta ply : Int) (ck : Bool) (d : Int)
    (hck : env.inCheckNow board = ck)
    (hd : d = if ck then depth0 + 1 else depth0)
    (hterm : env.terminated = false)
    (hply : ply < env.maxPly)
    (hdep : 0 < d)
    (hrep : ply = 0 ∨ env.repetitionCount board = 0)
    (htt : ply = 0 ∨
      (if env.ttEnabled then env.ttProbe board d ply alpha beta else none) = none)
    (hnull : nullMoveGuard (ply == 0) ck (env.insufficientMaterial board) d = true →
      -(env.childSearch (d - 1 - NULL_MOVE_REDUCTION) (-beta) (-beta + 1)
        (env.makeNullMove board) (ply + 1)) < beta)
    (hmoves : ∀ m ∈ env.generateMoves board, env.makeMove board m = none) :
    alphaBeta env depth0 alpha beta board ply
      = if ck then -CHECKMATE + ply else STALEMATE := by
  unfold alphaBeta
  simp only [hterm, Bool.false_eq_true, if_false, hck]
  rw [if_neg (by omega), if_neg (by omega : ¬ (if ck then depth0 + 1 else depth0) ≤ 0)]
  have hd2 : (if ck then depth0 + 1 else depth0) = d := hd.symm
  rw [hd2]
  have hrepc : (!(ply == 0) && decide (0 < env.repetitionCount board)) = false := by
    rcases hrep with h0 | h0
    · simp [h0]
    · simp [h0]
  rw [hrepc]
  simp only [Bool.false_eq_true, if_false]
  rcases htt with h0 | h0
  · have : (ply == 0) = true := by simp [h0]
    rw [this]
    cases hpr : (if env.ttEnabled then env.ttProbe board d ply alpha beta else none) <;>
      simp only [if_pos rfl] <;>
      exact alphaBetaMain_no_legal_moves env board d alpha beta ply _ ck
        (by rw [this] at hnull; exact hnull) hmoves
  · rw [h0]
    exact alphaBetaMain_no_legal_moves env board d alpha beta ply _ ck hnull hmoves

/-- A minimal concrete environment over the unit board, parameterised by
the check flag, the repetition count, the static evaluation, and the
constant value returned by every recursive child search. -/
def unitEnv (check : Bool) (rep : Nat) (eval : Int) (child : Int) :
    SearchEnv Unit :=
  { maxPly := 125, terminated := false, timeUp := false, ttEnabled := false,
    evaluate := fun _ => eval,
    inCheckNow := fun _ => check,
    repetitionCount := fun _ => rep,
    insufficientMaterial := fun _ => false,
    ttProbe := fun _ _ _ _ _ => none,
    generateMoves := fun _ => [],
    makeMove := fun _ _ => none,
    makeNullMove := fun _ => (),
    childSearch := fun _ _ _ _ _ => child,
    quiescence := fun _ _ _ _ => 0,
    givesCheck := fun _ _ => false,
    isKiller := fun _ _ => false,
    historyHigh := fun _ _ => false }

/-- Witness for the C2 theorem: a node in check with no legal moves
yields the mate score -24000 + 5 at ply 5, and one not in check yields
the stalemate score 0. -/
theorem alpha_beta_no_legal_moves_witness :
    alphaBeta (unitEnv true 0 0 0) 3 (-100) 100 () 5 = -CHECKMATE + 5 ∧
    alphaBeta (unitEnv false 0 0 (-50)) 3 (-100) 100 () 5 = STALEMATE := by
  constructor
  · have h := alpha_beta_no_legal_moves (unitEnv true 0 0 0) () 3 (-100) 100 5
      true 4 rfl (by norm_num) rfl (by norm_num [unitEnv]) (by norm_num)
      (Or.inr rfl) (Or.inr rfl)
      (fun hg => absurd hg (by decide))
      (by intro m hm; simp [unitEnv] at hm)
    rw [h]
    norm_num
  · have h := alpha_beta_no_legal_moves (unitEnv false 0 0 (-50)) () 3 (-100) 100 5
      false 3 rfl (by norm_num) rfl (by norm_num [unitEnv]) (by norm_num)
      (Or.inr rfl) (Or.inr rfl)
      (fun _ => by norm_num [unitEnv])
      (by intro m hm; simp [unitEnv] at hm)
    rw [h]
    norm_num

/-- C4: at a non-root node whose position repeats (repetition count at
least one) that is reached normally (not terminated, below the ply cap,
positive depth after the check extension), if the static evaluation is
at least 300 centipawns, `alpha_beta` returns the penalised score
-150 * (repetitions + 1) - strictly negative, and -300 for a single
prior occurrence - without searching any move. -/
theorem alpha_beta_repetition_penalty {β : Type} (env : SearchEnv β)
    (board : β) (depth0 alpha beta ply : Int) (ck : Bool) (d : Int)
    (hck : env.inCheckNow board = ck)
    (hd : d = if ck then depth0 + 1 else depth0)
    (hterm : env.terminated = false)
    (hply : ply < env.maxPly)
    (hdep : 0 < d)
    (hroot : ply ≠ 0)
    (hrep : 0 < env.repetitionCount board)
    (heval : 300 ≤ env.evaluate board) :
    alphaBeta env depth0 alpha beta board ply
      = -150 * ((env.repetitionCount board : Int) + 1) ∧
    alphaBeta env depth0 alpha beta board ply < 0 := by
  have hmain : alphaBeta env depth0 alpha beta board ply
      = -150 * ((env.repetitionCount board : Int) + 1) := by
    unfold alphaBeta
    simp only [hterm, Bool.false_eq_true, if_false, hck]
    rw [if_neg (by omega), if_neg (by omega : ¬ (if ck then depth0 + 1 else depth0) ≤ 0)]
    have hrepc : (!(ply == 0) && decide (0 < env.repetitionCount board)) = true := by
      simp only [Bool.and_eq_true, Bool.not_eq_eq_eq_not, Bool.not_true,
        decide_eq_true_eq]
      exact ⟨by simp [hroot], hrep⟩
    rw [hrepc, if_pos rfl]
    unfold repetitionPenalty
    rw [if_pos heval]
  refine ⟨hmain, ?_⟩
  rw [hmain]
  have hpos : (0 : Int) < (env.repetitionCount board : Int) + 1 := by
    positivity
  exact mul_neg_of_neg_of_pos (by norm_num) hpos

/-- Witness for the C4 theorem: one prior occurrence and a +300 static
evaluation yield the score -300 at a non-root node. -/
theorem alpha_beta_repetition_penalty_witness :
    alphaBeta (unitEnv false 1 300 0) 3 (-100) 100 () 5 = -300 ∧
    alphaBeta (unitEnv false 1 300 0) 3 (-100) 100 () 5 < 0 := by
  have h := alpha_beta_repetition_penalty (unitEnv false 1 300 0) ()
    3 (-100) 100 5 false 3 rfl (by norm_num) rfl (by norm_num [unitEnv])
    (by norm_num) (by norm_num) (by norm_num [unitEnv]) (by norm_num [unitEnv])
  refine ⟨?_, h.2⟩
  rw [h.1]
  norm_num [unitEnv]

/-- The null-move condition exactly as claim C3 words it: not the root,
not in check, material not insufficient, and depth > R + 1 where
R = NULL_MOVE_REDUCTION = 3. -/
def claimedNullMoveGuard (is_root is_check insufficient : Bool)
    (depth : Int) : Bool :=
  !is_root && !is_check && !insufficient &&
    decide (NULL_MOVE_REDUCTION + 1 < depth)

/-- Counterexample to C3 as stated: at a non-root depth-4 node (not in
check, sufficient material) the source guard holds although the claimed
condition depth > R + 1 = 4 does not; and the null move really is
attempted there - with a fail-high null search `alpha_beta` returns beta
(here 7), where the claimed guard would instead have led the moveless
node to the stalemate score 0 (as the losing-null-search variant
shows). -/
theorem null_move_depth_cex :
    nullMoveGuard false false false 4 = true ∧
    claimedNullMoveGuard false false false 4 = false ∧
    alphaBeta (unitEnv false 0 0 (-1000)) 4 (-100) 7 () 1 = 7 ∧
    alphaBeta (unitEnv false 0 0 1000) 4 (-100) 7 () 1 = 0 :=
  ⟨by decide, by decide, by decide, by decide⟩

/-- C3 amended: `alpha_beta` attempts the null move exactly when the node
is not the root, the side to move is not in check, material is not
insufficient, and depth > R (with R = NULL_MOVE_REDUCTION = 3); and at
any node reached normally where this guard holds and the reduced
null-window search at depth - 1 - R fails high, `alpha_beta` returns
beta. -/
theorem null_move_guard_amended :
    (∀ (is_root is_check insufficient : Bool) (depth : Int),
      nullMoveGuard is_root is_check insufficient depth
        = (!is_root && !is_check && !insufficient &&
            decide (NULL_MOVE_REDUCTION < depth))) ∧
    (∀ (β : Type) (env : SearchEnv β) (board : β)
      (depth0 alpha beta ply : Int) (ck : Bool) (d : Int),
      env.inCheckNow board = ck →
      d = (if ck then depth0 + 1 else depth0) →
      env.terminated = false →
      ply < env.maxPly →
      0 < d →
      (ply = 0 ∨ env.repetitionCount board = 0) →
      (ply = 0 ∨
        (if env.ttEnabled then env.ttProbe board d ply alpha beta else none)
          = none) →
      nullMoveGuard (ply == 0) ck (env.insufficientMaterial board) d = true →
      beta ≤ -(env.childSearch (d - 1 - NULL_MOVE_REDUCTION) (-beta)
        (-beta + 1) (env.makeNullMove board) (ply + 1)) →
      alphaBeta env depth0 alpha beta board ply = beta) := by
  constructor
  · intro is_root is_check insufficient depth
    cases is_root <;> cases is_check <;> cases insufficient <;> simp [nullMoveGuard]
  · intro β env board depth0 alpha beta ply ck d hck hd hterm hply hdep hrep htt
      hguard hhigh
    have hmain : alphaBetaMain env d alpha beta board ply (ply == 0) ck = beta := by
      unfold alphaBetaMain
      rw [if_pos]
      rw [if_pos hguard]
      exact decide_eq_true hhigh
    unfold alphaBeta
    simp only [hterm, Bool.false_eq_true, if_false, hck]
    rw [if_neg (by omega), if_neg (by omega : ¬ (if ck then depth0 + 1 else depth0) ≤ 0)]
    have hd2 : (if ck then depth0 + 1 else depth0) = d := hd.symm
    rw [hd2]
    have hroot : (ply == 0) = false := by
      have : ¬ ply = 0 := by
        intro h0
        rw [h0] at hguard
        simp [nullMoveGuard] at hguard
      simp [this]
    have hrepc : (!(ply == 0) && decide (0 < env.repetitionCount board)) = false := by
      rcases hrep with h0 | h0
      · simp [h0]
      · simp [h0]
    rw [hrepc]
    simp only [Bool.false_eq_true, if_false]
    rcases htt with h0 | h0
    · exfalso
      rw [h0] at hguard
      simp [nullMoveGuard] at hguard
    · rw [h0]
      exact hmain

/-- Witness for the amended C3 theorem: a depth-5, non-root node with a
fail-high null search returns beta = 7. -/
theorem null_move_guard_amended_witness :
    nullMoveGuard ((1 : Int) == 0) false false 5 = true ∧
    alphaBeta (unitEnv false 0 0 (-1000)) 5 (-100) 7 () 1 = 7 := by
  refine ⟨by decide, ?_⟩
  exact null_move_guard_amended.2 Unit (unitEnv false 0 0 (-1000)) ()
    5 (-100) 7 1 false 5 rfl (by norm_num) rfl (by norm_num [unitEnv])
    (by norm_num) (Or.inr rfl) (Or.inr rfl) (by decide) (by norm_num [unitEnv])

/-! ## C6: passed-pawn detection (misc/bits.rs, evaluation/pawn.rs) -/

/-- `bits::north_fill` (misc/bits.rs lines 49-55): smear every bit up
its file by repeated doubling shifts (u64 truncating), then remove the
original squares. -/
def north_fill (bitboard : Nat) : Nat :=
  let f1 := bitboard ||| shl64 bitboard 8
  let f2 := f1 ||| shl64 f1 16
  let f3 := f2 ||| shl64 f2 32
  f3 &&& compl64 bitboard

/-- `bits::south_fill` (misc/bits.rs lines 58-64). -/
def south_fill (bitboard : Nat) : Nat :=
  let f1 := bitboard ||| (bitboard >>> 8)
  let f2 := f1 ||| (f1 >>> 16)
  let f3 := f2 ||| (f2 >>> 32)
  f3 &&& compl64 bitboard

/-- `bits::white_front_spans` (misc/bits.rs lines 67-69). -/
def white_front_spans (pawns : Nat) : Nat := north_fill pawns

/-- `bits::black_front_spans` (misc/bits.rs lines 77-79). -/
def black_front_spans (pawns : Nat) : Nat := south_fill pawns

/-- The accumulation loop shared by the passed-pawn implementations:
visit the own-pawn squares in increasing order and set the bit of every
pawn satisfying the predicate. -/
def collectPassed (pawns : Nat) (pred : Nat → Bool) : Nat :=
  (List.range 64).foldl
    (fun passed square =>
      if pawns.testBit square && pred square then passed ||| (1 <<< square)
      else passed) 0

/-- `bits::white_passed_pawns` (misc/bits.rs lines 265-295): build the
enemy influence from the black forward spans, the spans of the
sideways-shifted black pawns, and the black pawns themselves; a white
pawn is passed when its forward span misses that set. -/
def white_passed_pawns (white_pawns black_pawns : Nat) : Nat :=
  let enemy_spans0 := black_front_spans black_pawns
  let left_adjacent := (black_pawns &&& compl64 BB_FILE_A) >>> 1
  let right_adjacent := shl64 (black_pawns &&& compl64 BB_FILE_H) 1
  let enemy_spans1 := enemy_spans0 |||
    black_front_spans (left_adjacent ||| right_adjacent)
  let enemy_spans := enemy_spans1 ||| black_pawns
  collectPassed white_pawns
    (fun square =>
      decide (white_front_spans (1 <<< square) &&& enemy_spans = 0))

/-- `bits::black_passed_pawns` (misc/bits.rs lines 298-328). -/
def black_passed_pawns (black_pawns white_pawns : Nat) : Nat :=
  let enemy_spans0 := white_front_spans white_pawns
  let left_adjacent := (white_pawns &&& compl64 BB_FILE_A) >>> 1
  let right_adjacent := shl64 (white_pawns &&& compl64 BB_FILE_H) 1
  let enemy_spans1 := enemy_spans0 |||
    white_front_spans (left_adjacent ||| right_adjacent)
  let enemy_spans := enemy_spans1 ||| white_pawns
  collectPassed black_pawns
    (fun square =>
      decide (black_front_spans (1 <<< square) &&& enemy_spans = 0))

/-- The reference loop `get_passed_pawns_old` from the test module of
evaluation/pawn.rs (lines 246-290): a pawn is passed when neither its
file nor the (saturating-clamped) adjacent files hold an enemy pawn
strictly in front of it.  The inner while loops over the file enemies
are rendered as a bounded scan filtered by file; the early breaks only
short-circuit the same existential test. -/
def get_passed_pawns_old (own_pawns enemy_pawns : Nat) (is_white : Bool) : Nat :=
  collectPassed own_pawns (fun square =>
    let file := square % 8
    let rank := square / 8
    !(([file - 1, file, min (file + 1) 7]).any (fun check_file =>
      (List.range 64).any (fun enemy_square =>
        enemy_pawns.testBit enemy_square &&
        decide (enemy_square % 8 = check_file) &&
        (if is_white then decide (rank < enemy_square / 8)
         else decide (enemy_square / 8 < rank))))))

/-- The mask of the first and eighth ranks (used to state the claim's
restriction to pawns on ranks 2-7). -/
def RANKS_1_AND_8 : Nat := 0xFF000000000000FF

/-- Counterexample to C6 as stated: white pawn d4, black pawn e5 (both
on ranks 2-7).  The black pawn stands on an adjacent file exactly one
rank ahead, which blocks the pawn for the reference loop but not for
the span computation: `white_passed_pawns` calls d4 passed,
`get_passed_pawns_old` does not. -/
theorem passed_pawns_span_cex :
    (1 <<< 27) &&& RANKS_1_AND_8 = 0 ∧
    (1 <<< 36) &&& RANKS_1_AND_8 = 0 ∧
    white_passed_pawns (1 <<< 27) (1 <<< 36) = 1 <<< 27 ∧
    get_passed_pawns_old (1 <<< 27) (1 <<< 36) true = 0 ∧
    white_passed_pawns (1 <<< 27) (1 <<< 36) ≠
      get_passed_pawns_old (1 <<< 27) (1 <<< 36) true :=
  ⟨by decide, by decide, by decide, by decide, by decide⟩

/-! Bit-level characterizations used to settle the amended form of C6. -/

theorem testBit_shl64 (x k i : Nat) :
    (shl64 x k).testBit i
      = (decide (i < 64) && (decide (k ≤ i) && x.testBit (i - k))) := by
  unfold shl64 M64
  rw [Nat.testBit_mod_two_pow, Nat.testBit_shiftLeft]

theorem testBit_compl64 (x i : Nat) :
    (compl64 x).testBit i = ((decide (i < 64)).xor (x.testBit i)) := by
  unfold compl64 M64
  rw [Nat.testBit_xor, Nat.testBit_two_pow_sub_one]

theorem testBit_high (x i : Nat) (hx : x < M64) (hi : 64 ≤ i) :
    x.testBit i = false := by
  refine Nat.testBit_lt_two_pow (lt_of_lt_of_le hx ?_)
  exact Nat.pow_le_pow_right (by omega) hi

theorem testBit_fileA (i : Nat) :
    BB_FILE_A.testBit i = (decide (i < 64) && decide (i % 8 = 0)) := by
  by_cases h : i < 64
  · interval_cases i <;> decide
  · rw [testBit_high _ _ (by decide) (by omega)]
    simp [show ¬ i < 64 from h]

theorem testBit_fileH (i : Nat) :
    BB_FILE_H.testBit i = (decide (i < 64) && decide (i % 8 = 7)) := by
  by_cases h : i < 64
  · interval_cases i <;> decide
  · rw [testBit_high _ _ (by decide) (by omega)]
    simp [show ¬ i < 64 from h]

theorem south_fill_testBit (x i : Nat) (hx : x < M64) :
    ((let f1 := x ||| (x >>> 8)
      let f2 := f1 ||| (f1 >>> 16)
      let f3 := f2 ||| (f2 >>> 32)
      f3 &&& compl64 x) : Nat).testBit i = true ↔
      (x.testBit i = false ∧
        ∃ k, 1 ≤ k ∧ k ≤ 7 ∧ x.testBit (i + 8 * k) = true) := by
  have hbit64 : ∀ j, x.testBit j = true → j < 64 := by
    intro j hj
    by_contra hge
    have h1 := Nat.testBit_implies_ge hj
    have h2 : (2 : Nat) ^ 64 ≤ 2 ^ j := Nat.pow_le_pow_right (by omega) (by omega)
    unfold M64 at hx
    omega
  rw [Nat.testBit_and, testBit_compl64]
  cases hxi : x.testBit i
  · simp only [Bool.xor_false, Bool.and_eq_true, decide_eq_true_eq,
      Nat.testBit_or, Nat.testBit_shiftRight, Bool.or_eq_true,
      Bool.false_eq_true, false_or]
    constructor
    · rintro ⟨h3, hlt⟩
      refine ⟨trivial, ?_⟩
      rcases h3 with (((h0 | h) | (h | h)) | ((h | h) | (h | h)))
      · rw [hxi] at h0; exact absurd h0 (by simp)
      · exact ⟨1, by omega, by omega, by convert h using 2 <;> omega⟩
      · exact ⟨2, by omega, by omega, by convert h using 2 <;> omega⟩
      · exact ⟨3, by omega, by omega, by convert h using 2 <;> omega⟩
      · exact ⟨4, by omega, by omega, by convert h using 2 <;> omega⟩
      · exact ⟨5, by omega, by omega, by convert h using 2 <;> omega⟩
      · exact ⟨6, by omega, by omega, by convert h using 2 <;> omega⟩
      · exact ⟨7, by omega, by omega, by convert h using 2 <;> omega⟩
    · rintro ⟨-, k, hk1, hk7, hb⟩
      have hi : i < 64 := by
        have := hbit64 _ hb
        omega
      refine ⟨?_, hi⟩
      interval_cases k
      · exact Or.inl (Or.inl (Or.inr (by convert hb using 2 <;> omega)))
      · exact Or.inl (Or.inr (Or.inl (by convert hb using 2 <;> omega)))
      · exact Or.inl (Or.inr (Or.inr (by convert hb using 2 <;> omega)))
      · exact Or.inr (Or.inl (Or.inl (by convert hb using 2 <;> omega)))
      · exact Or.inr (Or.inl (Or.inr (by convert hb using 2 <;> omega)))
      · exact Or.inr (Or.inr (Or.inl (by convert hb using 2 <;> omega)))
      · exact Or.inr (Or.inr (Or.inr (by convert hb using 2 <;> omega)))
  · simp only [Bool.xor_true, Bool.and_eq_true, decide_eq_true_eq,
      Nat.testBit_or, Nat.testBit_shiftRight, Bool.or_eq_true]
    simp [hbit64 i hxi, hxi]

theorem north_fill_testBit (x i : Nat) (hx : x < M64) :
    ((let f1 := x ||| shl64 x 8
      let f2 := f1 ||| shl64 f1 16
      let f3 := f2 ||| shl64 f2 32
      f3 &&& compl64 x) : Nat).testBit i = true ↔
      (i < 64 ∧ x.testBit i = false ∧
        ∃ k, 1 ≤ k ∧ k ≤ 7 ∧ 8 * k ≤ i ∧ x.testBit (i - 8 * k) = true) := by
  rw [Nat.testBit_and, testBit_compl64]
  cases hxi : x.testBit i
  · simp only [Bool.xor_false, Bool.and_eq_true, decide_eq_true_eq,
      Nat.testBit_or, testBit_shl64, Bool.or_eq_true, Bool.false_eq_true, false_or]
    constructor
    · rintro ⟨h3, hlt⟩
      refine ⟨hlt, trivial, ?_⟩
      rcases h3 with ((h | ⟨_, h8, hb⟩) | ⟨_, h16, (h | ⟨_, h8, hb⟩)⟩) |
        ⟨_, h32, ((h | ⟨_, h8, hb⟩) | ⟨_, h16b, (h | ⟨_, h8b, hb⟩)⟩)⟩
      · rw [hxi] at h; exact absurd h (by simp)
      · exact ⟨1, by omega, by omega, by omega, by convert hb using 2 <;> omega⟩
      · exact ⟨2, by omega, by omega, by omega, by convert h using 2 <;> omega⟩
      · exact ⟨3, by omega, by omega, by omega, by convert hb using 2 <;> omega⟩
      · exact ⟨4, by omega, by omega, by omega, by convert h using 2 <;> omega⟩
      · exact ⟨5, by omega, by omega, by omega, by convert hb using 2 <;> omega⟩
      · exact ⟨6, by omega, by omega, by omega, by convert h using 2 <;> omega⟩
      · exact ⟨7, by omega, by omega, by omega, by convert hb using 2 <;> omega⟩
    · rintro ⟨hlt, -, k, hk1, hk7, hki, hb⟩
      refine ⟨?_, hlt⟩
      interval_cases k
      · exact Or.inl (Or.inl (Or.inr ⟨hlt, by omega,
          by convert hb using 2 <;> omega⟩))
      · exact Or.inl (Or.inr ⟨hlt, by omega,
          Or.inl (by convert hb using 2 <;> omega)⟩)
      · exact Or.inl (Or.inr ⟨hlt, by omega,
          Or.inr ⟨by omega, by omega, by convert hb using 2 <;> omega⟩⟩)
      · exact Or.inr ⟨hlt, by omega,
          Or.inl (Or.inl (by convert hb using 2 <;> omega))⟩
      · exact Or.inr ⟨hlt, by omega,
          Or.inl (Or.inr ⟨by omega, by omega, by convert hb using 2 <;> omega⟩)⟩
      · exact Or.inr ⟨hlt, by omega,
          Or.inr ⟨by omega, by omega, Or.inl (by convert hb using 2 <;> omega)⟩⟩
      · exact Or.inr ⟨hlt, by omega,
          Or.inr ⟨by omega, by omega, Or.inr ⟨by omega, by omega,
            by convert hb using 2 <;> omega⟩⟩⟩
  · have hi : i < 64 := by
      by_contra hge
      have h1 := Nat.testBit_implies_ge hxi
      have h2 : (2 : Nat) ^ 64 ≤ 2 ^ i := Nat.pow_le_pow_right (by omega) (by omega)
      unfold M64 at hx
      omega
    simp only [Bool.xor_true, Bool.and_eq_true, decide_eq_true_eq,
      Nat.testBit_or, testBit_shl64, Bool.or_eq_true]
    simp [hi, hxi]

theorem north_fill_charr (x i : Nat) (hx : x < M64) :
    (north_fill x).testBit i = true ↔
      (i < 64 ∧ x.testBit i = false ∧
        ∃ k, 1 ≤ k ∧ k ≤ 7 ∧ 8 * k ≤ i ∧ x.testBit (i - 8 * k) = true) := by
  unfold north_fill
  exact north_fill_testBit x i hx

theorem south_fill_charr (x i : Nat) (hx : x < M64) :
    (south_fill x).testBit i = true ↔
      (x.testBit i = false ∧
        ∃ k, 1 ≤ k ∧ k ≤ 7 ∧ x.testBit (i + 8 * k) = true) := by
  unfold south_fill
  exact south_fill_testBit x i hx

theorem land_ne_zero_iff (a b : Nat) :
    a &&& b ≠ 0 ↔ ∃ i, a.testBit i = true ∧ b.testBit i = true := by
  constructor
  · intro h
    rcases Nat.ne_zero_implies_bit_true h with ⟨i, hi⟩
    rw [Nat.testBit_and, Bool.and_eq_true] at hi
    exact ⟨i, hi⟩
  · rintro ⟨i, ha, hb⟩ h0
    have := congrArg (fun x => x.testBit i) h0
    simp only [Nat.testBit_and, ha, hb, Nat.zero_testBit] at this
    exact absurd this (by simp)

theorem collectPassed_fold_testBit (pawns : Nat) (pred : Nat → Bool)
    (L : List Nat) (acc : Nat) (i : Nat) :
    (L.foldl (fun passed square =>
      if pawns.testBit square && pred square then passed ||| (1 <<< square)
      else passed) acc).testBit i
    = (acc.testBit i ||
       L.any (fun s => decide (s = i) && (pawns.testBit s && pred s))) := by
  induction L generalizing acc with
  | nil => simp
  | cons x xs ih =>
    simp only [List.foldl_cons, List.any_cons]
    rw [ih]
    by_cases hx : (pawns.testBit x && pred x) = true
    · rw [if_pos hx, Nat.testBit_or]
      have hsq : (1 <<< x).testBit i = decide (x = i) := by
        have h2 : (1 : Nat) <<< x = 2 ^ x := by simp [Nat.shiftLeft_eq]
        rw [h2, Nat.testBit_two_pow]
      rw [hsq, hx]
      cases hdec : decide (x = i) <;> cases hacc : acc.testBit i <;>
        cases hany : xs.any (fun s => decide (s = i) && (pawns.testBit s && pred s)) <;>
        simp [hdec, hacc, hany]
    · rw [if_neg hx]
      rw [Bool.not_eq_true] at hx
      simp [hx]

theorem any_range_eq (n i : Nat) (A : Nat → Bool) :
    ((List.range n).any (fun s => decide (s = i) && A s))
      = (decide (i < n) && A i) := by
  cases hi : decide (i < n)
  · simp only [Bool.false_and]
    rw [List.any_eq_false]
    intro s hs
    simp only [List.mem_range] at hs
    have hne : ¬ s = i := by
      intro h
      subst h
      exact absurd hs (by simpa using hi)
    simp [hne]
  · have hlt : i < n := of_decide_eq_true hi
    simp only [Bool.true_and]
    cases hA : A i
    · rw [List.any_eq_false]
      intro s hs
      by_cases h : s = i
      · subst h; simp [hA]
      · simp [h]
    · rw [List.any_eq_true]
      exact ⟨i, by simp [List.mem_range, hlt], by simp [hA]⟩

theorem collectPassed_testBit (pawns : Nat) (pred : Nat → Bool) (i : Nat) :
    (collectPassed pawns pred).testBit i
      = (decide (i < 64) && (pawns.testBit i && pred i)) := by
  unfold collectPassed
  rw [collectPassed_fold_testBit]
  simp only [Nat.zero_testBit, Bool.false_or]
  exact any_range_eq 64 i (fun s => pawns.testBit s && pred s)

theorem bit_lt_64 {x : Nat} (hx : x < M64) {m : Nat}
    (hm : x.testBit m = true) : m < 64 := by
  by_contra hge
  have h1 := Nat.testBit_implies_ge hm
  have h2 : (2 : Nat) ^ 64 ≤ 2 ^ m := Nat.pow_le_pow_right (by omega) (by omega)
  unfold M64 at hx
  omega

theorem one_shl_lt (s : Nat) (hs : s < 64) : (1 <<< s) < M64 := by
  have h1 : (1 : Nat) <<< s = 2 ^ s := by simp [Nat.shiftLeft_eq]
  rw [h1]
  unfold M64
  exact Nat.pow_lt_pow_right (by omega) hs

theorem north_single_char (s i : Nat) (hs : s < 64) :
    (north_fill (1 <<< s)).testBit i = true ↔
      (i < 64 ∧ ∃ k, 1 ≤ k ∧ k ≤ 7 ∧ i = s + 8 * k) := by
  have h1 : (1 : Nat) <<< s = 2 ^ s := by simp [Nat.shiftLeft_eq]
  rw [north_fill_charr _ _ (one_shl_lt s hs)]
  constructor
  · rintro ⟨hi, -, k, hk1, hk7, hki, hb⟩
    rw [h1, Nat.testBit_two_pow] at hb
    have hse : s = i - 8 * k := of_decide_eq_true hb
    exact ⟨hi, k, hk1, hk7, by omega⟩
  · rintro ⟨hi, k, hk1, hk7, hik⟩
    refine ⟨hi, ?_, k, hk1, hk7, by omega, ?_⟩
    · rw [h1, Nat.testBit_two_pow]
      simp only [decide_eq_false_iff_not]
      omega
    · rw [h1, Nat.testBit_two_pow]
      simp only [decide_eq_true_eq]
      omega

theorem south_single_char (s i : Nat) (hs : s < 64) :
    (south_fill (1 <<< s)).testBit i = true ↔
      (∃ k, 1 ≤ k ∧ k ≤ 7 ∧ s = i + 8 * k) := by
  have h1 : (1 : Nat) <<< s = 2 ^ s := by simp [Nat.shiftLeft_eq]
  rw [south_fill_charr _ _ (one_shl_lt s hs)]
  constructor
  · rintro ⟨-, k, hk1, hk7, hb⟩
    rw [h1, Nat.testBit_two_pow] at hb
    exact ⟨k, hk1, hk7, of_decide_eq_true hb⟩
  · rintro ⟨k, hk1, hk7, hik⟩
    refine ⟨?_, k, hk1, hk7, ?_⟩
    · rw [h1, Nat.testBit_two_pow]
      simp only [decide_eq_false_iff_not]
      omega
    · rw [h1, Nat.testBit_two_pow]
      simp only [decide_eq_true_eq]
      omega

theorem testBit_compl_fileA (m : Nat) :
    (compl64 BB_FILE_A).testBit m
      = (decide (m < 64) && !decide (m % 8 = 0)) := by
  rw [testBit_compl64, testBit_fileA]
  cases hd : decide (m < 64) <;> cases he : decide (m % 8 = 0) <;> simp

theorem testBit_compl_fileH (m : Nat) :
    (compl64 BB_FILE_H).testBit m
      = (decide (m < 64) && !decide (m % 8 = 7)) := by
  rw [testBit_compl64, testBit_fileH]
  cases hd : decide (m < 64) <;> cases he : decide (m % 8 = 7) <;> simp

def shiftedAdj (bp : Nat) : Nat :=
  ((bp &&& compl64 BB_FILE_A) >>> 1) ||| shl64 (bp &&& compl64 BB_FILE_H) 1

theorem shiftedAdj_lt (bp : Nat) : shiftedAdj bp < M64 := by
  unfold shiftedAdj shl64
  refine Nat.or_lt_two_pow ?_ ?_
  · have h1 : (bp &&& compl64 BB_FILE_A) >>> 1 ≤ bp &&& compl64 BB_FILE_A := by
      rw [Nat.shiftRight_eq_div_pow]
      exact Nat.div_le_self _ _
    have h2 : bp &&& compl64 BB_FILE_A ≤ compl64 BB_FILE_A := Nat.and_le_right
    have h3 : compl64 BB_FILE_A < M64 := by decide
    unfold M64 at h3
    omega
  · exact Nat.mod_lt _ (by unfold M64; positivity)

theorem shiftedAdj_testBit (bp j : Nat) (hbp : bp < M64) :
    (shiftedAdj bp).testBit j = true ↔
      ((bp.testBit (j + 1) = true ∧ (j + 1) % 8 ≠ 0) ∨
       (j < 64 ∧ 1 ≤ j ∧ bp.testBit (j - 1) = true ∧ (j - 1) % 8 ≠ 7)) := by
  unfold shiftedAdj
  rw [Nat.testBit_or, Bool.or_eq_true, Nat.testBit_shiftRight, Nat.testBit_and,
    testBit_compl_fileA, testBit_shl64, Nat.testBit_and, testBit_compl_fileH]
  simp only [Bool.and_eq_true, decide_eq_true_eq, Bool.not_eq_true',
    decide_eq_false_iff_not]
  constructor
  · rintro (⟨hb, hlt, hmod⟩ | ⟨hj, hj1, hb, hlt2, hmod⟩)
    · left
      rw [Nat.add_comm] at hb
      exact ⟨hb, by omega⟩
    · right
      exact ⟨hj, hj1, hb, hmod⟩
  · rintro (⟨hb, hmod⟩ | ⟨hj, hj1, hb, hmod⟩)
    · left
      have hlt : j + 1 < 64 := bit_lt_64 hbp hb
      rw [Nat.add_comm] at hb
      exact ⟨hb, by omega, by omega⟩
    · right
      exact ⟨hj, hj1, hb, by omega, hmod⟩

theorem white_pawn_attacks_left (wp s : Nat) (h : wp.testBit s = true)
    (hmod : s % 8 ≠ 0) (hlt : s + 7 < 64) :
    (white_pawn_attacks wp).testBit (s + 7) = true := by
  unfold white_pawn_attacks
  rw [Nat.testBit_or, Bool.or_eq_true]
  left
  rw [testBit_shl64]
  simp only [Bool.and_eq_true, decide_eq_true_eq]
  refine ⟨by omega, by omega, ?_⟩
  rw [Nat.testBit_and, testBit_compl_fileA]
  have he : s + 7 - 7 = s := by omega
  rw [he, h]
  simp only [Bool.true_and, Bool.and_eq_true, decide_eq_true_eq,
    Bool.not_eq_true', decide_eq_false_iff_not]
  exact ⟨by omega, hmod⟩

theorem white_pawn_attacks_right (wp s : Nat) (h : wp.testBit s = true)
    (hmod : s % 8 ≠ 7) (hlt : s + 9 < 64) :
    (white_pawn_attacks wp).testBit (s + 9) = true := by
  unfold white_pawn_attacks
  rw [Nat.testBit_or, Bool.or_eq_true]
  right
  rw [testBit_shl64]
  simp only [Bool.and_eq_true, decide_eq_true_eq]
  refine ⟨by omega, by omega, ?_⟩
  rw [Nat.testBit_and, testBit_compl_fileH]
  have he : s + 9 - 9 = s := by omega
  rw [he, h]
  simp only [Bool.true_and, Bool.and_eq_true, decide_eq_true_eq,
    Bool.not_eq_true', decide_eq_false_iff_not]
  exact ⟨by omega, hmod⟩

theorem shifted_descend (X s k0 : Nat) (hk2 : 2 ≤ k0) (hk7 : k0 ≤ 7)
    (hstep : X.testBit (s + 8 * k0) = true)
    (hbase : X.testBit (s + 8) = false) :
    ∃ k, 1 ≤ k ∧ k ≤ 6 ∧ X.testBit (s + 8 * k) = false ∧
      X.testBit (s + 8 * k + 8) = true := by
  induction k0 using Nat.strong_induction_on with
  | _ k0 ih =>
    by_cases hprev : X.testBit (s + 8 * (k0 - 1)) = true
    · by_cases h2 : 2 ≤ k0 - 1
      · exact ih (k0 - 1) (by omega) h2 (by omega) hprev
      · exfalso
        have hk1 : k0 - 1 = 1 := by omega
        rw [hk1, show s + 8 * 1 = s + 8 by ring, hbase] at hprev
        exact Bool.false_ne_true hprev
    · refine ⟨k0 - 1, by omega, by omega, ?_, ?_⟩
      · exact Bool.not_eq_true _ ▸ (by simpa using hprev)
      · have harg : s + 8 * (k0 - 1) + 8 = s + 8 * k0 := by omega
        rw [harg]
        exact hstep

theorem oldAny_white_iff (bp s : Nat) :
    (([s % 8 - 1, s % 8, min (s % 8 + 1) 7]).any (fun check_file =>
      (List.range 64).any (fun e =>
        bp.testBit e && decide (e % 8 = check_file) &&
          decide (s / 8 < e / 8)))) = true ↔
    ∃ e, e < 64 ∧ bp.testBit e = true ∧
      (e % 8 + 1 = s % 8 ∨ e % 8 = s % 8 ∨ e % 8 = s % 8 + 1) ∧
      s / 8 < e / 8 := by
  simp only [List.any_eq_true, List.mem_cons, List.not_mem_nil, or_false,
    List.mem_range, Bool.and_eq_true, decide_eq_true_eq]
  constructor
  · rintro ⟨cf, hcf, e, he, ⟨hb, hmod⟩, hrank⟩
    refine ⟨e, he, hb, ?_, hrank⟩
    rcases hcf with h | h | h <;> omega
  · rintro ⟨e, he, hb, hfile, hrank⟩
    rcases hfile with h | h | h
    · exact ⟨s % 8 - 1, Or.inl rfl, e, he, ⟨hb, by omega⟩, hrank⟩
    · exact ⟨s % 8, Or.inr (Or.inl rfl), e, he, ⟨hb, by omega⟩, hrank⟩
    · refine ⟨min (s % 8 + 1) 7, Or.inr (Or.inr rfl), e, he,
        ⟨hb, ?_⟩, hrank⟩
      have h7 : e % 8 ≤ 7 := by omega
      omega

theorem oldAny_black_iff (wp s : Nat) :
    (([s % 8 - 1, s % 8, min (s % 8 + 1) 7]).any (fun check_file =>
      (List.range 64).any (fun e =>
        wp.testBit e && decide (e % 8 = check_file) &&
          decide (e / 8 < s / 8)))) = true ↔
    ∃ e, e < 64 ∧ wp.testBit e = true ∧
      (e % 8 + 1 = s % 8 ∨ e % 8 = s % 8 ∨ e % 8 = s % 8 + 1) ∧
      e / 8 < s / 8 := by
  simp only [List.any_eq_true, List.mem_cons, List.not_mem_nil, or_false,
    List.mem_range, Bool.and_eq_true, decide_eq_true_eq]
  constructor
  · rintro ⟨cf, hcf, e, he, ⟨hb, hmod⟩, hrank⟩
    refine ⟨e, he, hb, ?_, hrank⟩
    rcases hcf with h | h | h <;> omega
  · rintro ⟨e, he, hb, hfile, hrank⟩
    rcases hfile with h | h | h
    · exact ⟨s % 8 - 1, Or.inl rfl, e, he, ⟨hb, by omega⟩, hrank⟩
    · exact ⟨s % 8, Or.inr (Or.inl rfl), e, he, ⟨hb, by omega⟩, hrank⟩
    · refine ⟨min (s % 8 + 1) 7, Or.inr (Or.inr rfl), e, he,
        ⟨hb, ?_⟩, hrank⟩
      have h7 : e % 8 ≤ 7 := by omega
      omega

theorem white_blocked_iff (wp bp s : Nat) (hbp : bp < M64)
    (hcontact : bp &&& white_pawn_attacks wp = 0)
    (hs : s < 64) (hws : wp.testBit s = true) :
    (north_fill (1 <<< s) &&&
        ((south_fill bp ||| south_fill (shiftedAdj bp)) ||| bp) ≠ 0)
    ↔ ∃ e, e < 64 ∧ bp.testBit e = true ∧
        (e % 8 + 1 = s % 8 ∨ e % 8 = s % 8 ∨ e % 8 = s % 8 + 1) ∧
        s / 8 < e / 8 := by
  rw [land_ne_zero_iff]
  constructor
  · rintro ⟨i, hspan, hsp⟩
    rw [north_single_char s i hs] at hspan
    obtain ⟨hi64, k, hk1, hk7, hik⟩ := hspan
    rw [Nat.testBit_or, Nat.testBit_or, Bool.or_eq_true, Bool.or_eq_true] at hsp
    rcases hsp with (hsf | hsfx) | hbpi
    · rw [south_fill_charr bp i hbp] at hsf
      obtain ⟨-, m, hm1, hm7, hbm⟩ := hsf
      exact ⟨i + 8 * m, bit_lt_64 hbp hbm, hbm, by omega, by omega⟩
    · rw [south_fill_charr _ i (shiftedAdj_lt bp)] at hsfx
      obtain ⟨-, m, hm1, hm7, hxm⟩ := hsfx
      rw [shiftedAdj_testBit bp _ hbp] at hxm
      rcases hxm with ⟨hb1, hmod⟩ | ⟨hjlt, hj1, hb1, hmod⟩
      · exact ⟨i + 8 * m + 1, bit_lt_64 hbp hb1, hb1, by omega, by omega⟩
      · exact ⟨i + 8 * m - 1, bit_lt_64 hbp hb1, hb1, by omega, by omega⟩
    · exact ⟨i, bit_lt_64 hbp hbpi, hbpi, by omega, by omega⟩
  · rintro ⟨e, he, hbe, hfile, hrank⟩
    have he8 : e / 8 ≤ 7 := by omega
    rcases hfile with hf | hf | hf
    · by_cases h1 : e / 8 = s / 8 + 1
      · exfalso
        have hes : e = s + 7 := by omega
        have hatt := white_pawn_attacks_left wp s hws (by omega) (by omega)
        rw [show s + 7 = e from hes.symm] at hatt
        exact absurd hcontact ((land_ne_zero_iff _ _).mpr ⟨e, hbe, hatt⟩)
      · have hk02 : 2 ≤ e / 8 - s / 8 := by omega
        have hj : (shiftedAdj bp).testBit (s + 8 * (e / 8 - s / 8)) = true := by
          rw [shiftedAdj_testBit bp _ hbp]
          right
          refine ⟨by omega, by omega, ?_, ?_⟩
          · rw [show s + 8 * (e / 8 - s / 8) - 1 = e from by omega]
            exact hbe
          · rw [show s + 8 * (e / 8 - s / 8) - 1 = e from by omega]
            omega
        have hbase : (shiftedAdj bp).testBit (s + 8) = false := by
          cases hx : (shiftedAdj bp).testBit (s + 8)
          · rfl
          · exfalso
            rw [shiftedAdj_testBit bp _ hbp] at hx
            rcases hx with ⟨hb1, hmod⟩ | ⟨-, -, hb1, hmod⟩
            · rw [show s + 8 + 1 = s + 9 from by omega] at hb1 hmod
              have hlt : s + 9 < 64 := bit_lt_64 hbp hb1
              have hatt := white_pawn_attacks_right wp s hws (by omega) hlt
              exact absurd hcontact
                ((land_ne_zero_iff _ _).mpr ⟨s + 9, hb1, hatt⟩)
            · rw [show s + 8 - 1 = s + 7 from by omega] at hb1 hmod
              have hlt : s + 7 < 64 := bit_lt_64 hbp hb1
              have hatt := white_pawn_attacks_left wp s hws (by omega) hlt
              exact absurd hcontact
                ((land_ne_zero_iff _ _).mpr ⟨s + 7, hb1, hatt⟩)
        obtain ⟨k, hk1, hk6, hzero, hnext⟩ :=
          shifted_descend (shiftedAdj bp) s (e / 8 - s / 8) hk02 (by omega)
            hj hbase
        refine ⟨s + 8 * k, ?_, ?_⟩
        · rw [north_single_char s _ hs]
          have hn64 := bit_lt_64 (shiftedAdj_lt bp) hnext
          exact ⟨by omega, k, hk1, by omega, rfl⟩
        · rw [Nat.testBit_or, Nat.testBit_or, Bool.or_eq_true, Bool.or_eq_true]
          left; right
          rw [south_fill_charr _ _ (shiftedAdj_lt bp)]
          refine ⟨hzero, 1, by omega, by omega, ?_⟩
          rw [show s + 8 * k + 8 * 1 = s + 8 * k + 8 from by ring]
          exact hnext
    · refine ⟨e, ?_, ?_⟩
      · rw [north_single_char s e hs]
        exact ⟨he, e / 8 - s / 8, by omega, by omega, by omega⟩
      · rw [Nat.testBit_or, Nat.testBit_or, Bool.or_eq_true, Bool.or_eq_true]
        right
        exact hbe
    · by_cases h1 : e / 8 = s / 8 + 1
      · exfalso
        have hes : e = s + 9 := by omega
        have hatt := white_pawn_attacks_right wp s hws (by omega) (by omega)
        rw [show s + 9 = e from hes.symm] at hatt
        exact absurd hcontact ((land_ne_zero_iff _ _).mpr ⟨e, hbe, hatt⟩)
      · have hk02 : 2 ≤ e / 8 - s / 8 := by omega
        have hj : (shiftedAdj bp).testBit (s + 8 * (e / 8 - s / 8)) = true := by
          rw [shiftedAdj_testBit bp _ hbp]
          left
          refine ⟨?_, ?_⟩
          · rw [show s + 8 * (e / 8 - s / 8) + 1 = e from by omega]
            exact hbe
          · rw [show s + 8 * (e / 8 - s / 8) + 1 = e from by omega]
            omega
        have hbase : (shiftedAdj bp).testBit (s + 8) = false := by
          cases hx : (shiftedAdj bp).testBit (s + 8)
          · rfl
          · exfalso
            rw [shiftedAdj_testBit bp _ hbp] at hx
            rcases hx with ⟨hb1, hmod⟩ | ⟨-, -, hb1, hmod⟩
            · rw [show s + 8 + 1 = s + 9 from by omega] at hb1 hmod
              have hlt : s + 9 < 64 := bit_lt_64 hbp hb1
              have hatt := white_pawn_attacks_right wp s hws (by omega) hlt
              exact absurd hcontact
                ((land_ne_zero_iff _ _).mpr ⟨s + 9, hb1, hatt⟩)
            · rw [show s + 8 - 1 = s + 7 from by omega] at hb1 hmod
              have hlt : s + 7 < 64 := bit_lt_64 hbp hb1
              have hatt := white_pawn_attacks_left wp s hws (by omega) hlt
              exact absurd hcontact
                ((land_ne_zero_iff _ _).mpr ⟨s + 7, hb1, hatt⟩)
        obtain ⟨k, hk1, hk6, hzero, hnext⟩ :=
          shifted_descend (shiftedAdj bp) s (e / 8 - s / 8) hk02 (by omega)
            hj hbase
        refine ⟨s + 8 * k, ?_, ?_⟩
        · rw [north_single_char s _ hs]
          have hn64 := bit_lt_64 (shiftedAdj_lt bp) hnext
          exact ⟨by omega, k, hk1, by omega, rfl⟩
        · rw [Nat.testBit_or, Nat.testBit_or, Bool.or_eq_true, Bool.or_eq_true]
          left; right
          rw [south_fill_charr _ _ (shiftedAdj_lt bp)]
          refine ⟨hzero, 1, by omega, by omega, ?_⟩
          rw [show s + 8 * k + 8 * 1 = s + 8 * k + 8 from by ring]
          exact hnext

theorem shifted_descend_down (X s k0 : Nat) (hk2 : 2 ≤ k0) (hk7 : k0 ≤ 7)
    (hle : 8 * k0 ≤ s)
    (hstep : X.testBit (s - 8 * k0) = true)
    (hbase : X.testBit (s - 8) = false) :
    ∃ k, 1 ≤ k ∧ k ≤ 6 ∧ 8 * (k + 1) ≤ s ∧ X.testBit (s - 8 * k) = false ∧
      X.testBit (s - 8 * k - 8) = true := by
  induction k0 using Nat.strong_induction_on with
  | _ k0 ih =>
    by_cases hprev : X.testBit (s - 8 * (k0 - 1)) = true
    · by_cases h2 : 2 ≤ k0 - 1
      · exact ih (k0 - 1) (by omega) h2 (by omega) (by omega) hprev
      · exfalso
        have hk1 : k0 - 1 = 1 := by omega
        rw [hk1, show s - 8 * 1 = s - 8 from by omega, hbase] at hprev
        exact Bool.false_ne_true hprev
    · refine ⟨k0 - 1, by omega, by omega, by omega, ?_, ?_⟩
      · exact Bool.not_eq_true _ ▸ (by simpa using hprev)
      · have harg : s - 8 * (k0 - 1) - 8 = s - 8 * k0 := by omega
        rw [harg]
        exact hstep

theorem black_blocked_iff (bp wp s : Nat) (hwp : wp < M64)
    (hcontact : bp &&& white_pawn_attacks wp = 0)
    (hs : s < 64) (hbs : bp.testBit s = true) :
    (south_fill (1 <<< s) &&&
        ((north_fill wp ||| north_fill (shiftedAdj wp)) ||| wp) ≠ 0)
    ↔ ∃ e, e < 64 ∧ wp.testBit e = true ∧
        (e % 8 + 1 = s % 8 ∨ e % 8 = s % 8 ∨ e % 8 = s % 8 + 1) ∧
        e / 8 < s / 8 := by
  rw [land_ne_zero_iff]
  constructor
  · rintro ⟨i, hspan, hsp⟩
    rw [south_single_char s i hs] at hspan
    obtain ⟨k, hk1, hk7, hik⟩ := hspan
    rw [Nat.testBit_or, Nat.testBit_or, Bool.or_eq_true, Bool.or_eq_true] at hsp
    rcases hsp with (hnf | hnfx) | hwpi
    · rw [north_fill_charr wp i hwp] at hnf
      obtain ⟨hi64, -, m, hm1, hm7, hm8, hwm⟩ := hnf
      exact ⟨i - 8 * m, by omega, hwm, by omega, by omega⟩
    · rw [north_fill_charr _ i (shiftedAdj_lt wp)] at hnfx
      obtain ⟨hi64, -, m, hm1, hm7, hm8, hxm⟩ := hnfx
      rw [shiftedAdj_testBit wp _ hwp] at hxm
      rcases hxm with ⟨hb1, hmod⟩ | ⟨hjlt, hj1, hb1, hmod⟩
      · exact ⟨i - 8 * m + 1, by omega, hb1, by omega, by omega⟩
      · exact ⟨i - 8 * m - 1, by omega, hb1, by omega, by omega⟩
    · exact ⟨i, by omega, hwpi, by omega, by omega⟩
  · rintro ⟨e, he, hbe, hfile, hrank⟩
    have hs8 : s / 8 ≤ 7 := by omega
    rcases hfile with hf | hf | hf
    · by_cases h1 : s / 8 = e / 8 + 1
      · exfalso
        have hes : s = e + 9 := by omega
        have hatt := white_pawn_attacks_right wp e hbe (by omega) (by omega)
        rw [show e + 9 = s from hes.symm] at hatt
        exact absurd hcontact ((land_ne_zero_iff _ _).mpr ⟨s, hbs, hatt⟩)
      · have hk02 : 2 ≤ s / 8 - e / 8 := by omega
        have hle : 8 * (s / 8 - e / 8) ≤ s := by omega
        have hj : (shiftedAdj wp).testBit (s - 8 * (s / 8 - e / 8)) = true := by
          rw [shiftedAdj_testBit wp _ hwp]
          right
          refine ⟨by omega, by omega, ?_, ?_⟩
          · rw [show s - 8 * (s / 8 - e / 8) - 1 = e from by omega]
            exact hbe
          · rw [show s - 8 * (s / 8 - e / 8) - 1 = e from by omega]
            omega
        have hbase : (shiftedAdj wp).testBit (s - 8) = false := by
          cases hx : (shiftedAdj wp).testBit (s - 8)
          · rfl
          · exfalso
            rw [shiftedAdj_testBit wp _ hwp] at hx
            rcases hx with ⟨hb1, hmod⟩ | ⟨-, -, hb1, hmod⟩
            · rw [show s - 8 + 1 = s - 7 from by omega] at hb1 hmod
              have hatt := white_pawn_attacks_left wp (s - 7) hb1
                (by omega) (by omega)
              rw [show s - 7 + 7 = s from by omega] at hatt
              exact absurd hcontact
                ((land_ne_zero_iff _ _).mpr ⟨s, hbs, hatt⟩)
            · rw [show s - 8 - 1 = s - 9 from by omega] at hb1 hmod
              have hatt := white_pawn_attacks_right wp (s - 9) hb1
                (by omega) (by omega)
              rw [show s - 9 + 9 = s from by omega] at hatt
              exact absurd hcontact
                ((land_ne_zero_iff _ _).mpr ⟨s, hbs, hatt⟩)
        obtain ⟨k, hk1, hk6, hks, hzero, hnext⟩ :=
          shifted_descend_down (shiftedAdj wp) s (s / 8 - e / 8) hk02
            (by omega) hle hj hbase
        refine ⟨s - 8 * k, ?_, ?_⟩
        · rw [south_single_char s _ hs]
          exact ⟨k, hk1, by omega, by omega⟩
        · rw [Nat.testBit_or, Nat.testBit_or, Bool.or_eq_true, Bool.or_eq_true]
          left; right
          rw [north_fill_charr _ _ (shiftedAdj_lt wp)]
          refine ⟨by omega, hzero, 1, by omega, by omega, by omega, ?_⟩
          rw [show s - 8 * k - 8 * 1 = s - 8 * k - 8 from by omega]
          exact hnext
    · refine ⟨e, ?_, ?_⟩
      · rw [south_single_char s e hs]
        exact ⟨s / 8 - e / 8, by omega, by omega, by omega⟩
      · rw [Nat.testBit_or, Nat.testBit_or, Bool.or_eq_true, Bool.or_eq_true]
        right
        exact hbe
    · by_cases h1 : s / 8 = e / 8 + 1
      · exfalso
        have hes : s = e + 7 := by omega
        have hatt := white_pawn_attacks_left wp e hbe (by omega) (by omega)
        rw [show e + 7 = s from hes.symm] at hatt
        exact absurd hcontact ((land_ne_zero_iff _ _).mpr ⟨s, hbs, hatt⟩)
      · have hk02 : 2 ≤ s / 8 - e / 8 := by omega
        have hle : 8 * (s / 8 - e / 8) ≤ s := by omega
        have hj : (shiftedAdj wp).testBit (s - 8 * (s / 8 - e / 8)) = true := by
          rw [shiftedAdj_testBit wp _ hwp]
          left
          refine ⟨?_, ?_⟩
          · rw [show s - 8 * (s / 8 - e / 8) + 1 = e from by omega]
            exact hbe
          · rw [show s - 8 * (s / 8 - e / 8) + 1 = e from by omega]
            omega
        have hbase : (shiftedAdj wp).testBit (s - 8) = false := by
          cases hx : (shiftedAdj wp).testBit (s - 8)
          · rfl
          · exfalso
            rw [shiftedAdj_testBit wp _ hwp] at hx
            rcases hx with ⟨hb1, hmod⟩ | ⟨-, -, hb1, hmod⟩
            · rw [show s - 8 + 1 = s - 7 from by omega] at hb1 hmod
              have hatt := white_pawn_attacks_left wp (s - 7) hb1
                (by omega) (by omega)
              rw [show s - 7 + 7 = s from by omega] at hatt
              exact absurd hcontact
                ((land_ne_zero_iff _ _).mpr ⟨s, hbs, hatt⟩)
            · rw [show s - 8 - 1 = s - 9 from by omega] at hb1 hmod
              have hatt := white_pawn_attacks_right wp (s - 9) hb1
                (by omega) (by omega)
              rw [show s - 9 + 9 = s from by omega] at hatt
              exact absurd hcontact
                ((land_ne_zero_iff _ _).mpr ⟨s, hbs, hatt⟩)
        obtain ⟨k, hk1, hk6, hks, hzero, hnext⟩ :=
          shifted_descend_down (shiftedAdj wp) s (s / 8 - e / 8) hk02
            (by omega) hle hj hbase
        refine ⟨s - 8 * k, ?_, ?_⟩
        · rw [south_single_char s _ hs]
          exact ⟨k, hk1, by omega, by omega⟩
        · rw [Nat.testBit_or, Nat.testBit_or, Bool.or_eq_true, Bool.or_eq_true]
          left; right
          rw [north_fill_charr _ _ (shiftedAdj_lt wp)]
          refine ⟨by omega, hzero, 1, by omega, by omega, by omega, ?_⟩
          rw [show s - 8 * k - 8 * 1 = s - 8 * k - 8 from by omega]
          exact hnext

theorem white_passed_pawns_eq (wp bp : Nat) :
    white_passed_pawns wp bp = collectPassed wp (fun s =>
      decide (north_fill (1 <<< s) &&&
        ((south_fill bp ||| south_fill (shiftedAdj bp)) ||| bp) = 0)) := rfl

theorem black_passed_pawns_eq (bp wp : Nat) :
    black_passed_pawns bp wp = collectPassed bp (fun s =>
      decide (south_fill (1 <<< s) &&&
        ((north_fill wp ||| north_fill (shiftedAdj wp)) ||| wp) = 0)) := rfl

theorem get_passed_pawns_old_white_eq (own enemy : Nat) :
    get_passed_pawns_old own enemy true = collectPassed own (fun s =>
      !(([s % 8 - 1, s % 8, min (s % 8 + 1) 7]).any (fun check_file =>
        (List.range 64).any (fun e =>
          enemy.testBit e && decide (e % 8 = check_file) &&
            decide (s / 8 < e / 8))))) := rfl

theorem get_passed_pawns_old_black_eq (own enemy : Nat) :
    get_passed_pawns_old own enemy false = collectPassed own (fun s =>
      !(([s % 8 - 1, s % 8, min (s % 8 + 1) 7]).any (fun check_file =>
        (List.range 64).any (fun e =>
          enemy.testBit e && decide (e % 8 = check_file) &&
            decide (e / 8 < s / 8))))) := rfl

theorem white_pred_eq (wp bp s : Nat) (hbp : bp < M64)
    (hcontact : bp &&& white_pawn_attacks wp = 0)
    (hs : s < 64) (hws : wp.testBit s = true) :
    decide (north_fill (1 <<< s) &&&
        ((south_fill bp ||| south_fill (shiftedAdj bp)) ||| bp) = 0)
    = !(([s % 8 - 1, s % 8, min (s % 8 + 1) 7]).any (fun check_file =>
        (List.range 64).any (fun e =>
          bp.testBit e && decide (e % 8 = check_file) &&
            decide (s / 8 < e / 8)))) := by
  have hiff := white_blocked_iff wp bp s hbp hcontact hs hws
  have hold := oldAny_white_iff bp s
  cases hX : (([s % 8 - 1, s % 8, min (s % 8 + 1) 7]).any (fun check_file =>
      (List.range 64).any (fun e =>
        bp.testBit e && decide (e % 8 = check_file) &&
          decide (s / 8 < e / 8))))
  · rw [Bool.not_false, decide_eq_true_eq]
    by_contra hne
    have hx := hold.mpr (hiff.mp hne)
    rw [hX] at hx
    exact Bool.false_ne_true hx
  · rw [Bool.not_true, decide_eq_false_iff_not]
    intro h0
    exact (hiff.mpr (hold.mp hX)) h0

theorem black_pred_eq (bp wp s : Nat) (hwp : wp < M64)
    (hcontact : bp &&& white_pawn_attacks wp = 0)
    (hs : s < 64) (hbs : bp.testBit s = true) :
    decide (south_fill (1 <<< s) &&&
        ((north_fill wp ||| north_fill (shiftedAdj wp)) ||| wp) = 0)
    = !(([s % 8 - 1, s % 8, min (s % 8 + 1) 7]).any (fun check_file =>
        (List.range 64).any (fun e =>
          wp.testBit e && decide (e % 8 = check_file) &&
            decide (e / 8 < s / 8)))) := by
  have hiff := black_blocked_iff bp wp s hwp hcontact hs hbs
  have hold := oldAny_black_iff wp s
  cases hX : (([s % 8 - 1, s % 8, min (s % 8 + 1) 7]).any (fun check_file =>
      (List.range 64).any (fun e =>
        wp.testBit e && decide (e % 8 = check_file) &&
          decide (e / 8 < s / 8))))
  · rw [Bool.not_false, decide_eq_true_eq]
    by_contra hne
    have hx := hold.mpr (hiff.mp hne)
    rw [hX] at hx
    exact Bool.false_ne_true hx
  · rw [Bool.not_true, decide_eq_false_iff_not]
    intro h0
    exact (hiff.mpr (hold.mp hX)) h0


/-- **C6** (amended): restricted to positions without diagonal pawn
contact (no black pawn stands on a square attacked by a white pawn --
a symmetric condition, since pawn attacks are mutual), the span-based
passed-pawn computations agree exactly with the reference loop
`get_passed_pawns_old` for both colours.  Without that restriction the
claim is refuted by `passed_pawns_span_cex`: an enemy pawn on an
adjacent file exactly one rank ahead blocks the pawn for the reference
loop but not for the span computation. -/
theorem passed_pawns_span_equiv (wp bp : Nat) (hwp : wp < M64)
    (hbp : bp < M64)
    (hcontact : bp &&& white_pawn_attacks wp = 0) :
    white_passed_pawns wp bp = get_passed_pawns_old wp bp true ∧
    black_passed_pawns bp wp = get_passed_pawns_old bp wp false := by
  constructor
  · rw [white_passed_pawns_eq, get_passed_pawns_old_white_eq]
    apply Nat.eq_of_testBit_eq
    intro i
    rw [collectPassed_testBit, collectPassed_testBit]
    by_cases hi : i < 64
    · by_cases hw : wp.testBit i = true
      · rw [white_pred_eq wp bp i hbp hcontact hi hw]
      · have hw' : wp.testBit i = false := by
          revert hw
          cases wp.testBit i <;> simp
        rw [hw']
        simp
    · have hd : decide (i < 64) = false := by simp [hi]
      rw [hd]
      simp
  · rw [black_passed_pawns_eq, get_passed_pawns_old_black_eq]
    apply Nat.eq_of_testBit_eq
    intro i
    rw [collectPassed_testBit, collectPassed_testBit]
    by_cases hi : i < 64
    · by_cases hb : bp.testBit i = true
      · rw [black_pred_eq bp wp i hwp hcontact hi hb]
      · have hb' : bp.testBit i = false := by
          revert hb
          cases bp.testBit i <;> simp
        rw [hb']
        simp
    · have hd : decide (i < 64) = false := by simp [hi]
      rw [hd]
      simp

/-- Witness for the amended C6 theorem: white pawn a2, black pawn h7
(no diagonal contact); both computations agree for both colours. -/
theorem passed_pawns_span_equiv_witness :
    (1 <<< 55) &&& white_pawn_attacks (1 <<< 8) = 0 ∧
    (white_passed_pawns (1 <<< 8) (1 <<< 55) =
        get_passed_pawns_old (1 <<< 8) (1 <<< 55) true ∧
      black_passed_pawns (1 <<< 55) (1 <<< 8) =
        get_passed_pawns_old (1 <<< 55) (1 <<< 8) false) :=
  ⟨by decide,
    passed_pawns_span_equiv (1 <<< 8) (1 <<< 55) (by decide) (by decide)
      (by decide)⟩
